import Mathlib

/-!
# ollama_scanner: the scan-orchestration engine

A shallow embedding of `ollama_scanner.go`: the resumable scan state and its
configuration fingerprint, the model-size ordering, the streaming benchmark,
the per-address worker and the `processResults` driver.

Conventions of the embedding.

* Go strings are `String`; `strings.Split`, `strings.TrimSuffix` and
  `strings.Contains` are written out on the character lists.
* `float64` is `Float64`: the two infinities, NaN and the finite values, the
  latter as the rationals they are; every arithmetic operation and every
  conversion rounds its exact result to the nearest float64, ties to even
  (`Float64.ofRat`), overflowing to an infinity; comparisons are the IEEE ones,
  so every comparison with NaN is false. The sign of a zero is not kept.
* `time.Duration` is an `Int` number of nanoseconds and `time.Now()` is a
  clock `Nat → Int` indexed by the number of the call.
* `map[string]bool` is an association list with at most one entry per key.
* Library and network calls the source makes (`strconv.ParseFloat`,
  `net.ParseIP`, `strings.TrimSpace`, `fmt.Sprintf` of a float, the TCP dial,
  the HTTP round trips) are fields of an environment record `Env`.
  `sort.Slice` is the insertion sort of the library up to 12 elements and a
  sequence of swaps supplied by `Env` beyond; `bufio.Scanner` is written out
  on the lines of a response body (`scanTokens`).
* `workerBody` is one whole pass of the loop body of a worker and `Step` is the
  same pass action by action. `workerLoop` runs the passes one address at a
  time, in queue order; `Pool` holds the program points of all the workers,
  which take their steps on the shared variables in any interleaving.
-/

namespace OllamaScanner

/-! ## float64 -/

/-- Values of the Go type float64, a finite one as the rational number it is. -/
inductive Float64 where
  | NaN
  | NegInf
  | finite (q : ℚ)
  | PosInf
deriving DecidableEq

namespace Float64

/-- The float64 constant 0. -/
def zero : Float64 := finite 0

/-- Go `a < b` on float64. -/
def lt : Float64 → Float64 → Bool
  | NaN, _ => false
  | NegInf, NaN => false
  | NegInf, NegInf => false
  | NegInf, finite _ => true
  | NegInf, PosInf => true
  | finite _, NaN => false
  | finite _, NegInf => false
  | finite a, finite b => decide (a < b)
  | finite _, PosInf => true
  | PosInf, _ => false

/-- Number of binary digits of `n`; `fuel` bounds the number of halvings. -/
def bitLength : Nat → Nat → Nat
  | 0, _ => 0
  | fuel + 1, n => if n = 0 then 0 else bitLength fuel (n / 2) + 1

/-- Numerator and denominator of `(p / q) / 2 ^ s`. -/
def scaleBy (p q : Nat) (s : Int) : Nat × Nat :=
  if 0 ≤ s then (p, q * 2 ^ s.toNat) else (p * 2 ^ (-s).toNat, q)

/-- The integer `e` with `2 ^ e ≤ p / q < 2 ^ (e + 1)`, for positive `p` and `q`. -/
def exponentOf (p q : Nat) : Int :=
  let d : Int := (bitLength p p : Int) - (bitLength q q : Int)
  if (scaleBy p q d).2 ≤ (scaleBy p q d).1 then d else d - 1

/-- The integer nearest to `n / d`, the even one of two nearest. -/
def roundHalfEven (n d : Nat) : Nat :=
  if 2 * (n % d) < d then n / d
  else if d < 2 * (n % d) then n / d + 1
  else if (n / d) % 2 = 0 then n / d else n / d + 1

/-- The rational `r * 2 ^ t`. -/
def timesPow2 (r : Nat) (t : Int) : ℚ :=
  if 0 ≤ t then mkRat (r * 2 ^ t.toNat : Nat) 1 else mkRat r (2 ^ (-t).toNat)

/-- The float64 nearest to the positive rational `p / q` (ties to even): 53
significant bits, the quantum not below `2 ^ (-1074)`, infinity from `2 ^ 1024` on.
`none` stands for the overflow. -/
def roundPos (p q : Nat) : Option ℚ :=
  let t : Int := max (exponentOf p q - 52) (-1074)
  let r := roundHalfEven (scaleBy p q t).1 (scaleBy p q t).2
  if 972 ≤ t ∨ (t = 971 ∧ 2 ^ 53 ≤ r) then none else some (timesPow2 r t)

/-- Rounding of a rational to float64. -/
def ofRat (x : ℚ) : Float64 :=
  if x.num = 0 then finite 0
  else if 0 < x.num then
    match roundPos x.num.toNat x.den with
    | some r => finite r
    | none => PosInf
  else
    match roundPos (-x.num).toNat x.den with
    | some r => finite (-r)
    | none => NegInf

/-- float64(n). -/
def ofInt (n : Int) : Float64 := ofRat (mkRat n 1)

/-- Go `a / b` on float64 (IEEE division; zero carries no sign here). -/
def divide (a b : Float64) : Float64 :=
  match a, b with
  | finite x, finite y =>
    if y.num = 0 then
      if x.num = 0 then NaN else if 0 < x.num then PosInf else NegInf
    else ofRat (Rat.divInt (x.num * y.den) (y.num * x.den))
  | finite _, PosInf => finite 0
  | finite _, NegInf => finite 0
  | PosInf, finite y => if y.num < 0 then NegInf else PosInf
  | NegInf, finite y => if y.num < 0 then PosInf else NegInf
  | _, _ => NaN

/-- Go `a * b` on float64. -/
def mul (a b : Float64) : Float64 :=
  match a, b with
  | finite x, finite y => ofRat (Rat.divInt (x.num * y.num) (x.den * y.den))
  | finite x, PosInf => if x.num = 0 then NaN else if 0 < x.num then PosInf else NegInf
  | finite x, NegInf => if x.num = 0 then NaN else if 0 < x.num then NegInf else PosInf
  | PosInf, finite y => if y.num = 0 then NaN else if 0 < y.num then PosInf else NegInf
  | NegInf, finite y => if y.num = 0 then NaN else if 0 < y.num then NegInf else PosInf
  | PosInf, PosInf => PosInf
  | PosInf, NegInf => NegInf
  | NegInf, PosInf => NegInf
  | NegInf, NegInf => PosInf
  | _, _ => NaN

/-- Go `a + b` on float64. -/
def add (a b : Float64) : Float64 :=
  match a, b with
  | finite x, finite y => ofRat (Rat.divInt (x.num * y.den + y.num * x.den) (x.den * y.den))
  | finite _, PosInf => PosInf
  | finite _, NegInf => NegInf
  | PosInf, finite _ => PosInf
  | NegInf, finite _ => NegInf
  | PosInf, PosInf => PosInf
  | NegInf, NegInf => NegInf
  | _, _ => NaN

/-- The method `Duration.Seconds` of the library: the whole seconds plus the
remaining nanoseconds over 1e9, integer division truncating toward zero. -/
def seconds (d : Int) : Float64 :=
  let sec : Int := if 0 ≤ d then d / 1000000000 else -((-d) / 1000000000)
  let nsec : Int := if 0 ≤ d then d % 1000000000 else -((-d) % 1000000000)
  add (ofInt sec) (divide (ofInt nsec) (finite 1000000000))

/-- The unit roundoff of float64, `2 ^ (-53)`. -/
def unitRoundoff : ℚ := 1 / 2 ^ 53

end Float64

/-! ## strings -/

/-- Go `strings.Split(s, sep)` for a one-character separator, on characters. -/
def splitChars (sep : Char) : List Char → List (List Char)
  | [] => [[]]
  | c :: cs =>
    if c = sep then [] :: splitChars sep cs
    else
      match splitChars sep cs with
      | [] => [[c]]
      | p :: ps => (c :: p) :: ps

/-- Go `strings.Split(s, sep)` for a one-character separator. -/
def Split (s : String) (sep : Char) : List String :=
  (splitChars sep s.data).map String.mk

/-- Go `strings.TrimSuffix(s, suffix)`. -/
def TrimSuffix (s suffix : String) : String :=
  if suffix.data.isSuffixOf s.data then
    String.mk (s.data.take (s.data.length - suffix.data.length))
  else s

/-- Go `strings.Contains(s, substr)`. -/
def Contains (s substr : String) : Bool :=
  s.data.tails.any (fun t => substr.data.isPrefixOf t)

/-! ## model sizes and their ordering -/

/-- The function `parseModelSize`; `ParseFloat s` is `strconv.ParseFloat(s, 64)`,
`none` when it returns an error. -/
def parseModelSize (ParseFloat : String → Option Float64) (model : String) : Float64 :=
  let parts := Split model ':'
  if parts.length < 2 then Float64.zero
  else
    let sizeStr := TrimSuffix (parts.getLastD "") "b"
    match ParseFloat sizeStr with
    | none => Float64.zero
    | some size => size

/-- One pass of the inner loop of the library insertion sort: the element `x`
moves left past every element it is less than. The sorted part is held with its
last element first. -/
def insertLeft {α : Type} (less : α → α → Bool) (x : α) : List α → List α
  | [] => [x]
  | p :: rest => if less x p then p :: insertLeft less x rest else x :: p :: rest

/-- The function `insertionSort_func` of the library on a whole slice: elements
are taken left to right and each is moved left while it is less than its left
neighbour. -/
def insertionSort {α : Type} (less : α → α → Bool) (data : List α) : List α :=
  (data.foldl (fun sorted x => insertLeft less x sorted) []).reverse

/-- The call `data.Swap(i, j)` on a slice. -/
def swapAt {α : Type} (data : List α) (i j : Nat) : List α :=
  match data[i]?, data[j]? with
  | some x, some y => (data.set i y).set j x
  | _, _ => data

/-- A sequence of `Swap` calls, in order. -/
def applySwaps {α : Type} (swaps : List (Nat × Nat)) (data : List α) : List α :=
  swaps.foldl (fun d s => swapAt d s.1 s.2) data

/-- The constant `maxInsertion` of `pdqsort_func`. -/
def maxInsertion : Nat := 12

/-- Go `sort.Slice(data, less)` (Go 1.19 and later): `pdqsort_func` sorts a slice
of at most `maxInsertion` elements by `insertionSort_func`. On a longer slice it
chooses pivots, partitions and falls back to other sorts; all it does to the
slice is a sequence of `Swap` calls, which is the parameter `pdqSwaps`. -/
def sortSlice {α : Type} (pdqSwaps : (α → α → Bool) → List α → List (Nat × Nat))
    (less : α → α → Bool) (data : List α) : List α :=
  if data.length ≤ maxInsertion then insertionSort less data
  else applySwaps (pdqSwaps less data) data

/-- The function `sortModels`. -/
def sortModels (ParseFloat : String → Option Float64)
    (pdqSwaps : (String → String → Bool) → List String → List (Nat × Nat))
    (models : List String) : List String :=
  sortSlice pdqSwaps
    (fun a b => Float64.lt (parseModelSize ParseFloat a) (parseModelSize ParseFloat b))
    models

/-- The text after the last `:` of a name, when the name has a `:`. -/
def afterLastColon : List Char → Option (List Char)
  | [] => none
  | c :: cs =>
    match afterLastColon cs with
    | some t => some t
    | none => if c = ':' then some cs else none

/-- One trailing `b` removed. -/
def dropTrailingB (s : List Char) : List Char :=
  match s.reverse with
  | c :: r => if c = 'b' then r.reverse else s
  | [] => s

/-- Reference definition of the parsed model size, following the wording of the
specification: the numeric suffix is the text after the last `:` with one
trailing `b` removed; the size is the number it parses as, and 0 otherwise. -/
def parseModelSizeSpec (ParseFloat : String → Option Float64) (model : String) : Float64 :=
  match afterLastColon model.data with
  | none => Float64.zero
  | some suffix =>
    match ParseFloat (String.mk (dropTrailingB suffix)) with
    | some size => size
    | none => Float64.zero

/-- A fragment of `strconv.ParseFloat(s, 64)` for concrete evaluation: unsigned
decimal integers of at most 15 digits (each is a float64 exactly), and the words
`nan`, `inf`, `+inf`, `-inf` in lower case; every other string is rejected here. -/
def parseFloatSimple (s : String) : Option Float64 :=
  if s = "nan" then some Float64.NaN
  else if s = "inf" ∨ s = "+inf" then some Float64.PosInf
  else if s = "-inf" then some Float64.NegInf
  else if s.data ≠ [] ∧ s.data.length ≤ 15 ∧ s.data.all Char.isDigit then
    some (Float64.finite ((s.data.foldl (fun n c => 10 * n + (c.toNat - 48)) 0 : ℕ) : ℚ))
  else none

/-! ## configuration fingerprint and scan state -/

/-- The command-line globals the engine reads: `*gatewayMAC`, `*inputFile`,
`*outputFile`, `*disableBench`, `*resumeScan`. -/
structure Flags where
  gatewayMAC : String
  inputFile : String
  outputFile : String
  disableBench : Bool
  resumeScan : Bool
deriving DecidableEq

/-- The struct `ScanConfig`. -/
structure ScanConfig where
  GatewayMAC : String
  InputFile : String
  OutputFile : String
  DisableBench : Bool
deriving DecidableEq

/-- Go `m[key]` on a `map[string]bool`: the stored value, `false` for a missing key. -/
def mapGet : List (String × Bool) → String → Bool
  | [], _ => false
  | (k, v) :: rest, key => if k = key then v else mapGet rest key

/-- Go `m[key] = val` on a `map[string]bool`. -/
def mapSet : List (String × Bool) → String → Bool → List (String × Bool)
  | [], key, val => [(key, val)]
  | (k, v) :: rest, key, val =>
    if k = key then (k, val) :: rest else (k, v) :: mapSet rest key val

/-- The keys of a `map[string]bool`. -/
def mapKeys (m : List (String × Bool)) : List String :=
  m.map Prod.fst

/-- The struct `ScanState`; `LastScanTime` is a clock reading. -/
structure ScanState where
  ScannedIPs : List (String × Bool)
  LastScanTime : Int
  TotalIPs : Int
  Config : ScanConfig
deriving DecidableEq

/-- The function `validateStateConfig`. -/
def validateStateConfig (flags : Flags) (state : ScanState) : Bool :=
  state.Config.GatewayMAC == flags.gatewayMAC &&
    state.Config.InputFile == flags.inputFile &&
    state.Config.OutputFile == flags.outputFile &&
    state.Config.DisableBench == flags.disableBench

/-- The fingerprint of the current run, as `processResults` builds it for a fresh state. -/
def currentConfig (flags : Flags) : ScanConfig :=
  { GatewayMAC := flags.gatewayMAC, InputFile := flags.inputFile,
    OutputFile := flags.outputFile, DisableBench := flags.disableBench }

/-- The struct `Progress` (without its mutex). -/
structure Progress where
  total : Int
  current : Int
  startTime : Int
deriving DecidableEq

/-- The method `Progress.Init`. -/
def Progress.Init (_p : Progress) (total : Int) (now : Int) : Progress :=
  { total := total, current := 0, startTime := now }

/-- The method `Progress.Increment` (the counter; the printed line is not modelled). -/
def Progress.Increment (p : Progress) : Progress :=
  { p with current := p.current + 1 }

/-! ## results -/

/-- The struct `ModelInfo`; `FirstTokenDelay` in nanoseconds. -/
structure ModelInfo where
  Name : String
  FirstTokenDelay : Int
  TokensPerSec : Float64
  Status : String
deriving DecidableEq

/-- The struct `ScanResult`. -/
structure ScanResult where
  IP : String
  Models : List ModelInfo
deriving DecidableEq

/-! ## the environment: library calls, network, files -/

/-- What `data["done"]` holds after a stream line was decoded into a map. -/
inductive DoneField where
  | absent
  | boolean (b : Bool)
  | other
deriving DecidableEq

/-- One line of the generate stream as `json.Unmarshal` into a
`map[string]interface{}` sees it. -/
inductive Chunk where
  | malformed
  | object (done : DoneField)
deriving DecidableEq

/-- One line of the body of the generate response: the number of its bytes
before the newline, and what `json.Unmarshal` makes of them. -/
structure StreamLine where
  size : Nat
  chunk : Chunk
deriving DecidableEq

/-- The body of the generate response as the reads of `resp.Body` deliver it:
the newline-terminated lines the server sends (`lines`); how many of them have
arrived when a read returns an error (`arrived`), which is the end of the body
(then all have arrived), the expiry of the client timeout `benchTimeout` or a
broken connection; and the bytes that have arrived after the last of these
lines, with no newline yet (`tail`). -/
structure Body where
  lines : List StreamLine
  arrived : Nat
  tail : Option StreamLine
deriving DecidableEq

/-- Outcome of the `POST /api/generate` request of `benchmarkModel`. -/
inductive GenerateResponse where
  | failed
  | answered (statusCode : Int) (body : Body)
deriving DecidableEq

/-- Outcome of the `GET /` request of `checkOllama`: the status code and the bytes
of the first read of the body, `none` when that read fails. -/
inductive RootResponse where
  | failed
  | answered (statusCode : Int) (body : Option String)
deriving DecidableEq

/-- Outcome of the `GET /api/tags` request of `getModels`: the status code and the
model identifiers of the decoded document, `none` when decoding fails. -/
inductive TagsResponse where
  | failed
  | answered (statusCode : Int) (models : Option (List String))
deriving DecidableEq

/-- The state file as `loadState` finds it. -/
inductive StateFile where
  | absent
  | unreadable
  | content (decoded : Option ScanState)
deriving DecidableEq

/-- Everything outside the program that a run consults. -/
structure Env where
  /-- Go `strconv.ParseFloat(s, 64)`, `none` on error. -/
  ParseFloat : String → Option Float64
  /-- The `Swap` calls `sort.Slice` makes, in order, on a slice of more than
  `maxInsertion` names. -/
  pdqSwaps : (String → String → Bool) → List String → List (Nat × Nat)
  /-- Go `net.ParseIP(s) != nil`. -/
  ParseIP : String → Bool
  /-- Go `strings.TrimSpace`. -/
  TrimSpace : String → String
  /-- Whether the TCP dial of `checkPort` succeeds. -/
  dial : String → Bool
  getRoot : String → RootResponse
  getTags : String → TagsResponse
  postGenerate : String → String → GenerateResponse
  /-- Readings of `time.Now()` during the benchmark of an address and model,
  by number of the call. -/
  clock : String → String → Nat → Int
  /-- Go `fmt.Sprintf` with verb `%.Nf`, by precision N. -/
  formatFloat : Nat → Float64 → String
  /-- Lines of the file `*outputFile` as `bufio.Scanner` yields them, `none` when
  `os.Open` fails. -/
  openOutput : Option (List String)
  stateFile : StateFile
  /-- Reading of `config.Now()`. -/
  now : Int

/-! ## the benchmark -/

/-- Local variables of the read loop of `benchmarkModel`; `calls` counts the
`time.Now()` calls made so far. -/
structure BenchVars where
  firstToken : Int
  lastToken : Int
  tokenCount : Nat
  calls : Nat
deriving DecidableEq

/-- The constant `bufio.MaxScanTokenSize`: the size of the largest buffer of a
scanner made by `bufio.NewScanner`. -/
def MaxScanTokenSize : Nat := 64 * 1024

/-- The tokens `scanner.Scan()` yields, in order, from the pieces that have
arrived: a piece and its newline have to fit the buffer, and at the first piece
of `MaxScanTokenSize` bytes or more `Scan` returns false (the error
`bufio.ErrTooLong`, which `benchmarkModel` does not read). -/
def takeTokens : List StreamLine → List Chunk
  | [] => []
  | l :: rest => if l.size < MaxScanTokenSize then l.chunk :: takeTokens rest else []

/-- The tokens of `bufio.NewScanner(resp.Body)` with the default split function
`bufio.ScanLines`: the lines that arrived before the failing read and, when it
is not empty, the unterminated rest as a last token. -/
def scanTokens (body : Body) : List Chunk :=
  takeTokens (body.lines.take body.arrived ++
    (match body.tail with
     | some t => if t.size = 0 then [] else [t]
     | none => []))

/-- The read loop of `benchmarkModel` over the lines the scanner yields. -/
def scanLines (clock : Nat → Int) : List Chunk → BenchVars → BenchVars
  | [], v => v
  | line :: rest, v =>
    let v1 :=
      if v.tokenCount = 0 then { v with firstToken := clock v.calls, calls := v.calls + 1 }
      else v
    let v2 :=
      { v1 with lastToken := clock v1.calls, calls := v1.calls + 1,
                tokenCount := v1.tokenCount + 1 }
    match line with
    | Chunk.malformed => scanLines clock rest v2
    | Chunk.object done =>
      if done = DoneField.boolean true then v2 else scanLines clock rest v2

/-- The function `benchmarkModel`: first-token delay, tokens per second, status. -/
def benchmarkModel (flags : Flags) (env : Env) (ip model : String) : Int × Float64 × String :=
  if flags.disableBench then (0, Float64.zero, "未测试")
  else
    let start := env.clock ip model 0
    match env.postGenerate ip model with
    | GenerateResponse.failed => (0, Float64.zero, "连接失败")
    | GenerateResponse.answered statusCode body =>
      if statusCode ≠ 200 then (0, Float64.zero, "HTTP错误: " ++ toString statusCode)
      else
        let v := scanLines (env.clock ip model) (scanTokens body)
          { firstToken := 0, lastToken := 0, tokenCount := 0, calls := 1 }
        if v.tokenCount = 0 then (0, Float64.zero, "无响应")
        else
          let totalTime := v.lastToken - start
          (v.firstToken - start,
            Float64.divide (Float64.ofInt v.tokenCount) (Float64.seconds totalTime), "完成")

/-! ## the probes -/

/-- The function `checkPort`. -/
def checkPort (env : Env) (ip : String) : Bool :=
  env.dial ip

/-- The function `checkOllama`. -/
def checkOllama (env : Env) (ip : String) : Bool :=
  match env.getRoot ip with
  | RootResponse.failed => false
  | RootResponse.answered statusCode body =>
    if statusCode ≠ 200 then false
    else
      match body with
      | none => false
      | some text => Contains text "Ollama is running"

/-- The function `getModels`. -/
def getModels (env : Env) (ip : String) : List String :=
  match env.getTags ip with
  | TagsResponse.failed => []
  | TagsResponse.answered statusCode decoded =>
    if statusCode ≠ 200 then []
    else
      match decoded with
      | none => []
      | some models => models.filter (fun m => Contains m "deepseek-r1")

/-! ## the worker -/

/-- The observable actions of a worker, in the order they happen. -/
inductive Event where
  | dialed (ip : String)
  | requestedRoot (ip : String)
  | requestedTags (ip : String)
  | requestedGenerate (ip model : String)
  | sent (result : ScanResult)
  | marked (ip : String)
  | incremented
deriving DecidableEq

/-- Whether an action is a network probe. -/
def Event.isProbe : Event → Bool
  | Event.dialed _ => true
  | Event.requestedRoot _ => true
  | Event.requestedTags _ => true
  | Event.requestedGenerate _ _ => true
  | _ => false

/-- The results sent on `resultsChan`, in order. -/
def sentResults : List Event → List ScanResult
  | [] => []
  | Event.sent r :: rest => r :: sentResults rest
  | _ :: rest => sentResults rest

/-- The body of the loop `for _, model := range models` of the worker: the
`ModelInfo` appended for one model. -/
def buildInfo (flags : Flags) (env : Env) (ip model : String) : ModelInfo :=
  if !flags.disableBench then
    let r := benchmarkModel flags env ip model
    { Name := model, FirstTokenDelay := r.1, TokensPerSec := r.2.1, Status := r.2.2 }
  else
    { Name := model, FirstTokenDelay := 0, TokensPerSec := Float64.zero, Status := "发现" }

/-- The requests `benchmarkModel` is called for in that loop. -/
def benchRequests (flags : Flags) (ip : String) (models : List String) : List Event :=
  if !flags.disableBench then models.map (Event.requestedGenerate ip) else []

/-- The probe block of the worker, `if checkPort(ip) && checkOllama(ip) ... else ...`:
the actions it performs. -/
def probeAddress (flags : Flags) (env : Env) (ip : String) : List Event :=
  if checkPort env ip then
    if checkOllama env ip then
      let models := getModels env ip
      if models.length > 0 then
        let models := sortModels env.ParseFloat env.pdqSwaps models
        let result : ScanResult := { IP := ip, Models := models.map (buildInfo flags env ip) }
        [Event.dialed ip, Event.requestedRoot ip, Event.requestedTags ip]
          ++ benchRequests flags ip models ++ [Event.sent result]
      else [Event.dialed ip, Event.requestedRoot ip, Event.requestedTags ip]
    else [Event.dialed ip, Event.requestedRoot ip]
  else [Event.dialed ip]

/-- The shared variables of the workers and the actions performed so far. -/
structure World where
  state : ScanState
  progress : Progress
  trace : List Event
deriving DecidableEq

/-- The `default:` branch of `workerWithProgress` for one dequeued address. -/
def workerBody (flags : Flags) (env : Env) (ip : String) (w : World) : World :=
  if mapGet w.state.ScannedIPs ip then
    { w with progress := w.progress.Increment, trace := w.trace ++ [Event.incremented] }
  else
    { state := { w.state with ScannedIPs := mapSet w.state.ScannedIPs ip true },
      progress := w.progress.Increment,
      trace := w.trace ++ probeAddress flags env ip ++ [Event.marked ip, Event.incremented] }

/-! ## the output rows -/

/-- The header `initCSVWriter` writes. -/
def initCSVWriter (flags : Flags) : List String :=
  ["IP地址", "模型名称", "状态"] ++
    (if !flags.disableBench then ["首Token延迟(ms)", "Tokens/s"] else [])

/-- The function `writeCSV`: the records written for one result. -/
def writeCSV (flags : Flags) (env : Env) (res : ScanResult) : List (List String) :=
  res.Models.map fun model =>
    [res.IP, model.Name, model.Status] ++
      (if !flags.disableBench then
        [env.formatFloat 0
           (Float64.mul (Float64.seconds model.FirstTokenDelay) (Float64.finite 1000)),
         env.formatFloat 1 model.TokensPerSec]
       else [])

/-- The function `handleScanResults`: the records written for the results received. -/
def handleScanResults (flags : Flags) (env : Env) (results : List ScanResult) :
    List (List String) :=
  (results.map (writeCSV flags env)).flatten

/-! ## the driver -/

/-- The function `loadState`: `Except.ok none` is the pair `nil, nil`. -/
def loadState (file : StateFile) : Except String (Option ScanState) :=
  match file with
  | StateFile.absent => Except.ok none
  | StateFile.unreadable => Except.error "读取状态文件失败"
  | StateFile.content none => Except.error "解析状态文件失败"
  | StateFile.content (some state) => Except.ok (some state)

/-- How the concurrent parts of one run fall out: after how many dequeued
addresses the cancellation is seen (`none`: never), after which addresses the
30-second ticker fires, and whether on cancellation `os.Exit(1)` of the signal
handler comes before the final `saveState`. -/
structure Schedule where
  cancelAfter : Option Nat
  tick : Nat → Bool
  exitBeforeFinalSave : Bool

/-- The state of the worker loop: shared variables, the states written by
`saveState` so far, and whether the workers returned on cancellation. -/
structure Loop where
  world : World
  saved : List ScanState
  cancelled : Bool

/-- The workers draining the channel `ips`, one address at a time (the schedule
in which an address is finished before the next one is dequeued; the other
interleavings are runs of `Pool`); `n` is the number of addresses dequeued
before. -/
def workerLoop (flags : Flags) (env : Env) (sched : Schedule) :
    Nat → List String → Loop → Loop
  | _, [], l => l
  | n, ip :: rest, l =>
    if sched.cancelAfter = some n then { l with cancelled := true }
    else
      let w := workerBody flags env ip l.world
      if sched.tick n then
        let st := { w.state with LastScanTime := env.now }
        workerLoop flags env sched (n + 1) rest
          { l with world := { w with state := st }, saved := l.saved ++ [st] }
      else
        workerLoop flags env sched (n + 1) rest { l with world := w }

/-- What a call of `processResults` did. -/
structure RunOutcome where
  /-- The returned error, `none` for `nil` (and when the process exited first). -/
  err : Option String
  /-- The scan state in memory at the end, when one was set up. -/
  state : Option ScanState
  progress : Option Progress
  /-- Worker actions in order. -/
  trace : List Event
  /-- Records written to the CSV writer. -/
  rows : List (List String)
  /-- States written to the state file, in order. -/
  saved : List ScanState
  /-- Number of lines read from the candidate list (both passes). -/
  linesRead : Nat
  /-- Whether the workers stopped on cancellation. -/
  cancelled : Bool
deriving DecidableEq

/-- An early `return fmt.Errorf(...)` of `processResults`. -/
def RunOutcome.failure (msg : String) : RunOutcome :=
  { err := some msg, state := none, progress := none, trace := [], rows := [], saved := [],
    linesRead := 0, cancelled := false }

/-- The valid addresses of the candidate list, as the feeding goroutine sends them. -/
def validAddresses (env : Env) (lines : List String) : List String :=
  (lines.map env.TrimSpace).filter env.ParseIP

/-- The counting pass of `processResults`: when `TotalIPs` is 0 the valid
addresses of the candidate list are counted into it. -/
def countAddresses (env : Env) (lines : List String) (state : ScanState) : ScanState :=
  if state.TotalIPs = 0 then
    { state with TotalIPs := ((validAddresses env lines).length : Int) }
  else state

/-- The progress tracker as `processResults` sets it up: `Init` with the total,
then `current` overwritten with the number of entries of the processed map. -/
def initProgress (env : Env) (state : ScanState) : Progress :=
  { (Progress.Init { total := 0, current := 0, startTime := 0 } state.TotalIPs env.now)
    with current := (state.ScannedIPs.length : Int) }

/-- The end of `processResults`, after the workers returned: the results are
written and the final state is saved, unless the workers were cancelled and
`os.Exit(1)` came first. -/
def finishRun (flags : Flags) (env : Env) (sched : Schedule) (linesRead : Nat) (l : Loop) :
    RunOutcome :=
  let final : ScanState := { l.world.state with LastScanTime := env.now }
  let killed := l.cancelled && sched.exitBeforeFinalSave
  { err := none,
    state := some (if killed then l.world.state else final),
    progress := some l.world.progress,
    trace := l.world.trace,
    rows := handleScanResults flags env (sentResults l.world.trace),
    saved := if killed then l.saved else l.saved ++ [final],
    linesRead := linesRead,
    cancelled := l.cancelled }

/-- The part of `processResults` after the scan state is set up: counting pass,
progress tracker, workers, result handling and final save. -/
def runScan (flags : Flags) (env : Env) (sched : Schedule) (lines : List String)
    (state : ScanState) : RunOutcome :=
  finishRun flags env sched
    ((if state.TotalIPs = 0 then lines.length else 0) + lines.length)
    (workerLoop flags env sched 0 (validAddresses env lines)
      { world := { state := countAddresses env lines state,
                   progress := initProgress env (countAddresses env lines state),
                   trace := [] },
        saved := [], cancelled := false })

/-- The state `processResults` creates when none was loaded. -/
def freshState (flags : Flags) : ScanState :=
  { ScannedIPs := [], LastScanTime := 0, TotalIPs := 0, Config := currentConfig flags }

/-- The function `processResults`. -/
def processResults (flags : Flags) (env : Env) (sched : Schedule) : RunOutcome :=
  match env.openOutput with
  | none => RunOutcome.failure "打开结果文件失败"
  | some lines =>
    match (if flags.resumeScan then loadState env.stateFile else Except.ok none) with
    | Except.error e => RunOutcome.failure ("加载扫描状态失败: " ++ e)
    | Except.ok (some state) =>
      if !validateStateConfig flags state then
        RunOutcome.failure "扫描配置已更改,无法继续之前的扫描"
      else runScan flags env sched lines state
    | Except.ok none => runScan flags env sched lines (freshState flags)

/-! ## the worker, action by action -/

/-- Where a worker stands in the loop body of `workerWithProgress`: waiting for an
address; inside the probe block of an address, with the actions of the block
still to come (`state.ScannedIPs[ip] = true` is next once none is left); or before
`progress.Increment()`. -/
inductive Phase where
  | idle
  | working (ip : String) (todo : List Event)
  | counting
deriving DecidableEq

/-- The shared variables together with the program point of the worker. -/
structure Machine where
  world : World
  phase : Phase
deriving DecidableEq

/-- One action of the run. A run can be stopped after any of them (the signal
handler ends the process with `os.Exit(1)`); a worker that sees the
cancellation at the top of its loop returns from `idle`. -/
inductive Step (flags : Flags) (env : Env) : Machine → Machine → Prop where
  /-- An address is dequeued and it is already processed: on to the increment. -/
  | skip (w : World) (ip : String) (h : mapGet w.state.ScannedIPs ip = true) :
      Step flags env { world := w, phase := Phase.idle } { world := w, phase := Phase.counting }
  /-- An address is dequeued and it is not processed: the probe block starts. -/
  | start (w : World) (ip : String) (h : mapGet w.state.ScannedIPs ip = false) :
      Step flags env { world := w, phase := Phase.idle }
        { world := w, phase := Phase.working ip (probeAddress flags env ip) }
  /-- The next action of the probe block (a request, or the send of the result). -/
  | act (w : World) (ip : String) (e : Event) (rest : List Event) :
      Step flags env { world := w, phase := Phase.working ip (e :: rest) }
        { world := { w with trace := w.trace ++ [e] }, phase := Phase.working ip rest }
  /-- The statement `state.ScannedIPs[ip] = true`. -/
  | mark (w : World) (ip : String) :
      Step flags env { world := w, phase := Phase.working ip [] }
        { world :=
            { w with
              state := { w.state with ScannedIPs := mapSet w.state.ScannedIPs ip true },
              trace := w.trace ++ [Event.marked ip] },
          phase := Phase.counting }
  /-- The statement `progress.Increment()`. -/
  | count (w : World) :
      Step flags env { world := w, phase := Phase.counting }
        { world :=
            { w with progress := w.progress.Increment,
                     trace := w.trace ++ [Event.incremented] },
          phase := Phase.idle }
  /-- The ticker goroutine stamps the state before saving it. -/
  | tick (w : World) (p : Phase) :
      Step flags env { world := w, phase := p }
        { world := { w with state := { w.state with LastScanTime := env.now } }, phase := p }

/-- The constant `maxWorkers`: the number of workers `processResults` starts. -/
def maxWorkers : Nat := 200

/-- The shared variables together with the program point of every worker of the
pool. -/
structure Pool where
  world : World
  phases : List Phase
deriving DecidableEq

/-- One action of a run with several workers: the worker with number `i` takes
one `Step` on the shared variables, the other workers stay where they are. -/
inductive PoolStep (flags : Flags) (env : Env) : Pool → Pool → Prop where
  | worker (p : Pool) (i : Nat) (ph : Phase) (w2 : World) (ph2 : Phase)
      (hi : p.phases[i]? = some ph)
      (hs : Step flags env { world := p.world, phase := ph } { world := w2, phase := ph2 }) :
      PoolStep flags env p { world := w2, phases := p.phases.set i ph2 }

/-- The states a run of `workers` workers started with the shared variables `w0`
can be in, the actions of the workers interleaved in any order. -/
inductive PoolReachable (flags : Flags) (env : Env) (w0 : World) (workers : Nat) :
    Pool → Prop where
  | init : PoolReachable flags env w0 workers
      { world := w0, phases := List.replicate workers Phase.idle }
  | next (p p2 : Pool) (hp : PoolReachable flags env w0 workers p)
      (hs : PoolStep flags env p p2) : PoolReachable flags env w0 workers p2

/-- An address whose pipeline has completed in a trace: the actions of its probe
block have all been performed, in their order, and its mark after them (the
actions of other workers may lie in between). -/
def Completed (flags : Flags) (env : Env) (trace : List Event) (ip : String) : Prop :=
  (probeAddress flags env ip ++ [Event.marked ip]).Sublist trace

/-! ## the count of chunks and the progress line -/

/-- The number of lines up to and including the first one that is an object
whose `done` field is the boolean true; the number of all lines when there is
no such line. -/
def consumedLines : List Chunk → Nat
  | [] => 0
  | line :: rest =>
    if line = Chunk.object (DoneField.boolean true) then 1 else 1 + consumedLines rest

/-- A malformed line replaced by an object without `done` field. -/
def wellFormed : Chunk → Chunk
  | Chunk.malformed => Chunk.object DoneField.absent
  | c => c

/-- The percentage `printProgress` computes, `float64(current) / float64(total) * 100`. -/
def Progress.percentage (p : Progress) : Float64 :=
  Float64.mul (Float64.divide (Float64.ofInt p.current) (Float64.ofInt p.total))
    (Float64.finite 100)

/-- The remaining time `printProgress` computes from the elapsed nanoseconds,
`float64(elapsed) / float64(p.current) * float64(p.total-p.current)`, before its
conversion to a duration; 0 when nothing is counted yet. -/
def Progress.remainingTime (p : Progress) (elapsed : Int) : Float64 :=
  if p.current > 0 then
    Float64.mul (Float64.divide (Float64.ofInt elapsed) (Float64.ofInt p.current))
      (Float64.ofInt (p.total - p.current))
  else Float64.zero

/-! ## sample inputs for concrete evaluation -/

/-- Flags of a sample run with benchmarking disabled. -/
def sampleFlags : Flags :=
  { gatewayMAC := "aa:bb:cc:dd:ee:ff", inputFile := "ip.txt", outputFile := "results.csv",
    disableBench := true, resumeScan := false }

/-- A saved state whose fingerprint is that of `sampleFlags`. -/
def sampleState : ScanState :=
  { ScannedIPs := [("10.0.0.1", true)], LastScanTime := 0, TotalIPs := 2,
    Config := currentConfig sampleFlags }

/-- A saved state written by a run with another output path. -/
def staleState : ScanState :=
  { sampleState with Config := { currentConfig sampleFlags with OutputFile := "other.csv" } }

/-- A fragment of `net.ParseIP(s) != nil` for concrete evaluation: dotted-quad
IPv4 literals (four decimal fields 0 to 255 without leading zeros); every other
string is rejected here. -/
def parseIPSimple (s : String) : Bool :=
  let fields := splitChars '.' s.data
  fields.length = 4 ∧
    fields.all fun f =>
      f ≠ [] ∧ f.length ≤ 3 ∧ f.all Char.isDigit ∧ (f.length = 1 ∨ f.head? ≠ some '0') ∧
        f.foldl (fun n c => 10 * n + (c.toNat - 48)) 0 ≤ 255

/-- A fragment of `strings.TrimSpace` for concrete evaluation: leading and
trailing blanks, tabs, carriage returns and newlines are removed. -/
def trimSpaceSimple (s : String) : String :=
  String.mk ((s.data.dropWhile Char.isWhitespace).reverse.dropWhile Char.isWhitespace).reverse

/-- The swaps of the inner loop of an insertion sort for the element at index
`j`. -/
def sinkSwaps {α : Type} (less : α → α → Bool) : Nat → List α → List (Nat × Nat)
  | 0, _ => []
  | j + 1, data =>
    match data[j + 1]?, data[j]? with
    | some x, some y =>
      if less x y then (j + 1, j) :: sinkSwaps less j (swapAt data (j + 1) j) else []
    | _, _ => []

/-- A stand-in for the swaps of `pdqsort_func` in concrete evaluation: the swaps
of an insertion sort of the whole slice. On names of distinct sizes, none of
them NaN, every sequence of swaps that sorts ends in the same order. -/
def insertionSwaps {α : Type} (less : α → α → Bool) (data : List α) : List (Nat × Nat) :=
  (List.range data.length).foldl
    (fun acc i => acc ++ sinkSwaps less i (applySwaps acc data)) []

/-- A number in decimal, with zeros in front up to the given width. -/
def padDigits (width n : Nat) : String :=
  String.mk (List.replicate (width - (Nat.toDigits 10 n).length) '0' ++ Nat.toDigits 10 n)

/-- Go `fmt.Sprintf` with verb `%.Nf` for concrete evaluation: the exact value
rounded to N decimals, ties to even; `NaN`, `+Inf` and `-Inf` for the values
that are no numbers. -/
def formatFixed (prec : Nat) : Float64 → String
  | Float64.NaN => "NaN"
  | Float64.PosInf => "+Inf"
  | Float64.NegInf => "-Inf"
  | Float64.finite q =>
    let scaled := Float64.roundHalfEven (q.num.natAbs * 10 ^ prec) q.den
    (if q.num < 0 then "-" else "") ++ padDigits 1 (scaled / 10 ^ prec) ++
      (if prec = 0 then "" else "." ++ padDigits prec (scaled % 10 ^ prec))

/-- A body read to its end whose lines, of 64 bytes each, decode to the given
chunks. -/
def shortLines (chunks : List Chunk) : Body :=
  { lines := chunks.map fun c => { size := 64, chunk := c },
    arrived := chunks.length,
    tail := none }

/-- A sample environment: a candidate list of three addresses and one line that
is no address; only 10.0.0.2 accepts the connection and it serves two models
that match the name filter and one that does not. -/
def sampleEnv : Env :=
  { ParseFloat := parseFloatSimple
    pdqSwaps := insertionSwaps
    ParseIP := parseIPSimple
    TrimSpace := trimSpaceSimple
    dial := fun ip => ip == "10.0.0.2"
    getRoot := fun _ => RootResponse.answered 200 (some "Ollama is running")
    getTags := fun _ =>
      TagsResponse.answered 200 (some ["deepseek-r1:14b", "llama3:8b", "deepseek-r1:7b"])
    postGenerate := fun _ _ =>
      GenerateResponse.answered 200
        (shortLines [Chunk.object DoneField.absent, Chunk.object (DoneField.boolean true)])
    clock := fun _ _ n => 1000000 * (n : Int)
    formatFloat := formatFixed
    openOutput := some ["10.0.0.1", " 10.0.0.2 ", "not an address", "10.0.0.3"]
    stateFile := StateFile.absent
    now := 0 }

/-- The shared variables at the start of a fresh run over the sample list. -/
def sampleWorld : World :=
  { state := { ScannedIPs := [], LastScanTime := 0, TotalIPs := 3,
               Config := currentConfig sampleFlags },
    progress := { total := 3, current := 0, startTime := 0 },
    trace := [] }

/-- A schedule without cancellation and without a ticker firing. -/
def calmSchedule : Schedule :=
  { cancelAfter := none, tick := fun _ => false, exitBeforeFinalSave := false }

/-- Flags of a sample run with benchmarking enabled. -/
def benchFlags : Flags :=
  { sampleFlags with disableBench := false }

/-- The sample environment with a stream of a single chunk, marked done, and a
clock whose readings after the request start are all the same instant, 5 ms
after the start (two successive `time.Now()` calls within the clock resolution). -/
def coarseClockEnv : Env :=
  { sampleEnv with
    postGenerate := fun _ _ =>
      GenerateResponse.answered 200 (shortLines [Chunk.object (DoneField.boolean true)])
    clock := fun _ _ n => if n = 0 then 0 else 5000000 }

/-- The sample environment with a stream of a single chunk, marked done, whose
two clock readings are 25518293 ns after the start. -/
def unevenClockEnv : Env :=
  { sampleEnv with
    postGenerate := fun _ _ =>
      GenerateResponse.answered 200 (shortLines [Chunk.object (DoneField.boolean true)])
    clock := fun _ _ n => if n = 0 then 0 else 25518293 }

/-- Flags of a sample run that asks to resume. -/
def resumeFlags : Flags :=
  { sampleFlags with resumeScan := true }

/-- The sample environment with a state file in which the three addresses of
the candidate list are all processed. -/
def resumedEnv : Env :=
  { sampleEnv with
    stateFile := StateFile.content (some
      { ScannedIPs := [("10.0.0.1", true), ("10.0.0.2", true), ("10.0.0.3", true)],
        LastScanTime := 0, TotalIPs := 3, Config := currentConfig sampleFlags }) }

/-- The sample environment with a state file written under another output path. -/
def staleEnv : Env :=
  { sampleEnv with stateFile := StateFile.content (some staleState) }

/-- The pool of the sample run between the send of the result of 10.0.0.2 by the
first worker and the statement that marks 10.0.0.2 processed, the other workers
waiting. -/
def sentNotMarked : Pool :=
  { world := { sampleWorld with trace := probeAddress sampleFlags sampleEnv "10.0.0.2" },
    phases := (List.replicate maxWorkers Phase.idle).set 0 (Phase.working "10.0.0.2" []) }

/-- The shared variables of the sample run after two workers have both probed,
marked and counted the address 10.0.0.2. -/
def twiceProbed : World :=
  { state :=
      { sampleWorld.state with
        ScannedIPs := mapSet (mapSet sampleWorld.state.ScannedIPs "10.0.0.2" true)
          "10.0.0.2" true },
    progress := sampleWorld.progress.Increment.Increment,
    trace := sampleWorld.trace ++ probeAddress sampleFlags sampleEnv "10.0.0.2"
      ++ [Event.marked "10.0.0.2"] ++ [Event.incremented]
      ++ probeAddress sampleFlags sampleEnv "10.0.0.2"
      ++ [Event.marked "10.0.0.2"] ++ [Event.incremented] }

/-- A sample result with two records, as the worker builds it with benchmarking
enabled. -/
def sampleResult : ScanResult :=
  { IP := "10.0.0.2",
    Models := [
      { Name := "deepseek-r1:7b", FirstTokenDelay := 1000000,
        TokensPerSec := Float64.finite 1000, Status := "完成" },
      { Name := "deepseek-r1:14b", FirstTokenDelay := 0, TokensPerSec := Float64.zero,
        Status := "连接失败" }] }

/-- A stream of four lines: a malformed line first, an object without `done`
field, an object marked done, and one more object after it. -/
def mixedStream : List Chunk :=
  [Chunk.malformed, Chunk.object DoneField.absent, Chunk.object (DoneField.boolean true),
   Chunk.object DoneField.absent]

/-- The sample environment serving `mixedStream`. -/
def mixedEnv : Env :=
  { sampleEnv with
    postGenerate := fun _ _ => GenerateResponse.answered 200 (shortLines mixedStream) }

/-- A body of two lines read to its end: a first line of 70000 bytes and a
second line of 13 bytes, an object marked done. -/
def longLineBody : Body :=
  { lines := [{ size := 70000, chunk := Chunk.object DoneField.absent },
              { size := 13, chunk := Chunk.object (DoneField.boolean true) }],
    arrived := 2,
    tail := none }

/-- The sample environment serving `longLineBody`. -/
def longLineEnv : Env :=
  { sampleEnv with postGenerate := fun _ _ => GenerateResponse.answered 200 longLineBody }

/-- A body of three short lines of which only the first has arrived when the
client timeout expires, with the first bytes of the second. -/
def lateBody : Body :=
  { lines := [{ size := 20, chunk := Chunk.object DoneField.absent },
              { size := 20, chunk := Chunk.object DoneField.absent },
              { size := 13, chunk := Chunk.object (DoneField.boolean true) }],
    arrived := 1,
    tail := some { size := 7, chunk := Chunk.malformed } }

/-- The sample environment serving `lateBody`. -/
def lateEnv : Env :=
  { sampleEnv with postGenerate := fun _ _ => GenerateResponse.answered 200 lateBody }

/-! ## theorems -/

/-! ### float64 rounding -/

section Rounding

open Float64

theorem bitLength_zero (fuel : Nat) : bitLength fuel 0 = 0 := by
  cases fuel <;> simp [bitLength]

theorem bitLength_spec (fuel n : Nat) (h : n < 2 ^ fuel) (hn : 0 < n) :
    0 < bitLength fuel n ∧ 2 ^ (bitLength fuel n - 1) ≤ n ∧ n < 2 ^ bitLength fuel n := by
  induction fuel generalizing n with
  | zero => simp at h; omega
  | succ f ih =>
    have hn0 : n ≠ 0 := by omega
    simp only [bitLength, hn0, if_false]
    by_cases h2 : n / 2 = 0
    · have h1 : n = 1 := by omega
      subst h1
      simp [bitLength_zero]
    · have hlt : n / 2 < 2 ^ f := by
        rw [pow_succ] at h
        omega
      obtain ⟨b1, b2, b3⟩ := ih (n / 2) hlt (by omega)
      obtain ⟨c, hc⟩ : ∃ c, bitLength f (n / 2) = c + 1 := ⟨bitLength f (n / 2) - 1, by omega⟩
      rw [hc] at b2 b3 ⊢
      simp only [Nat.add_sub_cancel] at b2 ⊢
      rw [pow_succ] at b3 ⊢
      refine ⟨by omega, ?_, ?_⟩
      · omega
      · rw [pow_succ]
        omega

theorem scaleBy_spec (p q : Nat) (s : Int) (hq : 0 < q) :
    0 < (scaleBy p q s).2 ∧
      ((scaleBy p q s).1 : ℚ) / ((scaleBy p q s).2 : ℚ) = (p : ℚ) / (q : ℚ) / (2 : ℚ) ^ s := by
  unfold scaleBy
  by_cases hs : 0 ≤ s
  · obtain ⟨k, rfl⟩ := Int.eq_ofNat_of_zero_le hs
    simp only [hs, if_true, Int.toNat_ofNat, zpow_natCast]
    refine ⟨Nat.mul_pos hq (pow_pos (by norm_num) k), ?_⟩
    push_cast
    rw [div_div]
  · obtain ⟨k, hk⟩ : ∃ k : Nat, s = -(k : Int) := ⟨(-s).toNat, by omega⟩
    subst hk
    simp only [hs, if_false, neg_neg, Int.toNat_ofNat, zpow_neg, zpow_natCast]
    refine ⟨hq, ?_⟩
    push_cast
    field_simp

theorem exponentOf_spec (p q : Nat) (hp : 0 < p) (hq : 0 < q) :
    (2 : ℚ) ^ exponentOf p q ≤ (p : ℚ) / q ∧ (p : ℚ) / q < (2 : ℚ) ^ (exponentOf p q + 1) := by
  obtain ⟨a1, a2, a3⟩ := bitLength_spec p p (Nat.lt_two_pow p) hp
  obtain ⟨c1, c2, c3⟩ := bitLength_spec q q (Nat.lt_two_pow q) hq
  have hq0 : (0 : ℚ) < q := by exact_mod_cast hq
  have h2 : (0 : ℚ) < 2 := by norm_num
  -- the bounds of the two bit lengths, as integer powers
  have pa : (2 : ℚ) ^ ((bitLength p p : Int) - 1) ≤ p := by
    have : ((2 ^ (bitLength p p - 1) : Nat) : ℚ) ≤ p := by exact_mod_cast a2
    have e : ((bitLength p p : Int) - 1) = ((bitLength p p - 1 : Nat) : Int) := by omega
    rw [e, zpow_natCast]
    exact_mod_cast this
  have pb : (p : ℚ) < (2 : ℚ) ^ (bitLength p p : Int) := by
    rw [zpow_natCast]
    exact_mod_cast a3
  have qa : (2 : ℚ) ^ ((bitLength q q : Int) - 1) ≤ q := by
    have : ((2 ^ (bitLength q q - 1) : Nat) : ℚ) ≤ q := by exact_mod_cast c2
    have e : ((bitLength q q : Int) - 1) = ((bitLength q q - 1 : Nat) : Int) := by omega
    rw [e, zpow_natCast]
    exact_mod_cast this
  have qb : (q : ℚ) < (2 : ℚ) ^ (bitLength q q : Int) := by
    rw [zpow_natCast]
    exact_mod_cast c3
  -- the quotient lies strictly between 2 ^ (d - 1) and 2 ^ (d + 1)
  have lower : (2 : ℚ) ^ ((bitLength p p : Int) - (bitLength q q : Int) - 1) < (p : ℚ) / q := by
    rw [lt_div_iff₀ hq0]
    calc (2 : ℚ) ^ ((bitLength p p : Int) - (bitLength q q : Int) - 1) * q
        < (2 : ℚ) ^ ((bitLength p p : Int) - (bitLength q q : Int) - 1)
            * (2 : ℚ) ^ (bitLength q q : Int) :=
          mul_lt_mul_of_pos_left qb (zpow_pos h2 _)
      _ = (2 : ℚ) ^ ((bitLength p p : Int) - 1) := by
          rw [← zpow_add₀ (by norm_num : (2 : ℚ) ≠ 0)]
          congr 1
          ring
      _ ≤ p := pa
  have upper : (p : ℚ) / q < (2 : ℚ) ^ ((bitLength p p : Int) - (bitLength q q : Int) + 1) := by
    rw [div_lt_iff₀ hq0]
    calc (p : ℚ) < (2 : ℚ) ^ (bitLength p p : Int) := pb
      _ = (2 : ℚ) ^ ((bitLength p p : Int) - (bitLength q q : Int) + 1)
            * (2 : ℚ) ^ ((bitLength q q : Int) - 1) := by
          rw [← zpow_add₀ (by norm_num : (2 : ℚ) ≠ 0)]
          congr 1
          ring
      _ ≤ (2 : ℚ) ^ ((bitLength p p : Int) - (bitLength q q : Int) + 1) * q :=
          mul_le_mul_of_nonneg_left qa (le_of_lt (zpow_pos h2 _))
  obtain ⟨s1, s2⟩ := scaleBy_spec p q ((bitLength p p : Int) - (bitLength q q : Int)) hq
  have hD : (0 : ℚ) < ((scaleBy p q ((bitLength p p : Int) - (bitLength q q : Int))).2 : ℚ) := by
    exact_mod_cast s1
  have hpow : (0 : ℚ) < (2 : ℚ) ^ ((bitLength p p : Int) - (bitLength q q : Int)) :=
    zpow_pos h2 _
  unfold exponentOf
  simp only
  by_cases ht : (scaleBy p q ((bitLength p p : Int) - (bitLength q q : Int))).2
      ≤ (scaleBy p q ((bitLength p p : Int) - (bitLength q q : Int))).1
  · rw [if_pos ht]
    refine ⟨?_, upper⟩
    have h1 : (1 : ℚ) ≤ (p : ℚ) / q / (2 : ℚ) ^ ((bitLength p p : Int) - (bitLength q q : Int)) := by
      rw [← s2, le_div_iff₀ hD, one_mul]
      exact_mod_cast ht
    rwa [le_div_iff₀ hpow, one_mul] at h1
  · rw [if_neg ht]
    refine ⟨le_of_lt lower, ?_⟩
    have h1 : (p : ℚ) / q / (2 : ℚ) ^ ((bitLength p p : Int) - (bitLength q q : Int)) < 1 := by
      rw [← s2, div_lt_iff₀ hD, one_mul]
      exact_mod_cast not_le.mp ht
    rw [div_lt_iff₀ hpow, one_mul] at h1
    simpa using h1

theorem roundHalfEven_spec (n d : Nat) (hd : 0 < d) :
    |((roundHalfEven n d : Nat) : ℚ) - (n : ℚ) / d| ≤ 1 / 2 := by
  have hdm := Nat.div_add_mod n d
  have hlt := Nat.mod_lt n hd
  have key : 2 * n ≤ (2 * roundHalfEven n d + 1) * d ∧
      2 * roundHalfEven n d * d ≤ 2 * n + d := by
    unfold roundHalfEven
    generalize n / d = f at hdm ⊢
    generalize n % d = ρ at hdm hlt ⊢
    subst hdm
    have e1 : (2 * f + 1) * d = 2 * (d * f) + d := by ring
    have e2 : 2 * f * d = 2 * (d * f) := by ring
    have e3 : (2 * (f + 1) + 1) * d = 2 * (d * f) + 3 * d := by ring
    have e4 : 2 * (f + 1) * d = 2 * (d * f) + 2 * d := by ring
    split
    · rw [e1, e2]
      omega
    · split
      · rw [e3, e4]
        omega
      · split
        · rw [e1, e2]
          omega
        · rw [e3, e4]
          omega
  obtain ⟨k1, k2⟩ := key
  have hd0 : (0 : ℚ) < d := by exact_mod_cast hd
  have k1q : (2 : ℚ) * n ≤ (2 * (roundHalfEven n d : ℚ) + 1) * d := by exact_mod_cast k1
  have k2q : (2 : ℚ) * (roundHalfEven n d : ℚ) * d ≤ 2 * n + d := by exact_mod_cast k2
  rw [abs_le]
  constructor
  · rw [le_sub_iff_add_le, ← sub_eq_neg_add, sub_le_iff_le_add, div_le_iff₀ hd0]
    nlinarith
  · rw [sub_le_iff_le_add, ← sub_le_iff_le_add', le_div_iff₀ hd0]
    nlinarith

theorem timesPow2_spec (r : Nat) (t : Int) : timesPow2 r t = (r : ℚ) * (2 : ℚ) ^ t := by
  unfold timesPow2
  by_cases ht : 0 ≤ t
  · obtain ⟨k, rfl⟩ := Int.eq_ofNat_of_zero_le ht
    simp [Rat.mkRat_eq_div]
  · obtain ⟨k, hk⟩ : ∃ k : Nat, t = -(k : Int) := ⟨(-t).toNat, by omega⟩
    subst hk
    simp only [ht, if_false, neg_neg, Int.toNat_ofNat, zpow_neg, zpow_natCast,
      Rat.mkRat_eq_div]
    push_cast
    rw [div_eq_mul_inv]

theorem roundPos_near (p q : Nat) (hp : 0 < p) (hq : 0 < q)
    (hlo : (2 : ℚ) ^ (-1022 : Int) ≤ (p : ℚ) / q) (hhi : (p : ℚ) / q ≤ (2 : ℚ) ^ (1000 : Int)) :
    ∃ r, roundPos p q = some r ∧ |r - (p : ℚ) / q| ≤ (p : ℚ) / q / 2 ^ 53 := by
  obtain ⟨e1, e2⟩ := exponentOf_spec p q hp hq
  have h2 : (1 : ℚ) < 2 := by norm_num
  have he_lo : (-1022 : Int) ≤ exponentOf p q := by
    have := lt_of_le_of_lt hlo e2
    rw [zpow_lt_zpow_iff_right₀ h2] at this
    omega
  have he_hi : exponentOf p q ≤ 1000 := by
    have := le_trans e1 hhi
    rwa [zpow_le_zpow_iff_right₀ h2] at this
  have ht : max (exponentOf p q - 52) (-1074) = exponentOf p q - 52 := max_eq_left (by omega)
  obtain ⟨s1, s2⟩ := scaleBy_spec p q (exponentOf p q - 52) hq
  have hr := roundHalfEven_spec (scaleBy p q (exponentOf p q - 52)).1
    (scaleBy p q (exponentOf p q - 52)).2 s1
  rw [s2] at hr
  have hno : ¬ (972 ≤ exponentOf p q - 52 ∨
      (exponentOf p q - 52 = 971 ∧
        2 ^ 53 ≤ roundHalfEven (scaleBy p q (exponentOf p q - 52)).1
          (scaleBy p q (exponentOf p q - 52)).2)) := by
    omega
  refine ⟨timesPow2 (roundHalfEven (scaleBy p q (exponentOf p q - 52)).1
      (scaleBy p q (exponentOf p q - 52)).2) (exponentOf p q - 52), ?_, ?_⟩
  · unfold roundPos
    simp only [ht, hno, if_false]
  · rw [timesPow2_spec]
    have hpow : (0 : ℚ) < (2 : ℚ) ^ (exponentOf p q - 52) := zpow_pos (by norm_num) _
    have hsplit : (2 : ℚ) ^ (exponentOf p q - 52) = (2 : ℚ) ^ exponentOf p q / 2 ^ 52 := by
      rw [zpow_sub₀ (by norm_num : (2 : ℚ) ≠ 0)]
      norm_num
    have hx : (p : ℚ) / q
        = (p : ℚ) / q / (2 : ℚ) ^ (exponentOf p q - 52) * (2 : ℚ) ^ (exponentOf p q - 52) := by
      rw [div_mul_cancel₀ _ (ne_of_gt hpow)]
    calc |(roundHalfEven (scaleBy p q (exponentOf p q - 52)).1
            (scaleBy p q (exponentOf p q - 52)).2 : ℚ) * (2 : ℚ) ^ (exponentOf p q - 52)
            - (p : ℚ) / q|
        = |((roundHalfEven (scaleBy p q (exponentOf p q - 52)).1
            (scaleBy p q (exponentOf p q - 52)).2 : ℚ)
            - (p : ℚ) / q / (2 : ℚ) ^ (exponentOf p q - 52))
            * (2 : ℚ) ^ (exponentOf p q - 52)| := by
          congr 1
          rw [sub_mul, ← hx]
      _ = |(roundHalfEven (scaleBy p q (exponentOf p q - 52)).1
            (scaleBy p q (exponentOf p q - 52)).2 : ℚ)
            - (p : ℚ) / q / (2 : ℚ) ^ (exponentOf p q - 52)|
            * (2 : ℚ) ^ (exponentOf p q - 52) := by
          rw [abs_mul, abs_of_pos hpow]
      _ ≤ 1 / 2 * (2 : ℚ) ^ (exponentOf p q - 52) :=
          mul_le_mul_of_nonneg_right hr (le_of_lt hpow)
      _ = (2 : ℚ) ^ exponentOf p q / 2 ^ 53 := by
          rw [hsplit]
          norm_num
          ring
      _ ≤ (p : ℚ) / q / 2 ^ 53 := by
          apply div_le_div_of_nonneg_right e1
          norm_num

theorem ofRat_near (x : ℚ) (hx0 : 0 ≤ x)
    (hr : x = 0 ∨ ((2 : ℚ) ^ (-1022 : Int) ≤ x ∧ x ≤ (2 : ℚ) ^ (1000 : Int))) :
    ∃ r, ofRat x = finite r ∧ |r - x| ≤ x / 2 ^ 53 := by
  by_cases hz : x = 0
  · subst hz
    exact ⟨0, by simp [ofRat], by simp⟩
  · have hpos : 0 < x := lt_of_le_of_ne hx0 (Ne.symm hz)
    have hnum : 0 < x.num := Rat.num_pos.mpr hpos
    have hden : 0 < x.den := x.den_pos
    have hcast : ((x.num.toNat : Nat) : ℚ) / (x.den : ℚ) = x := by
      have h1 : ((x.num.toNat : Nat) : ℚ) = ((x.num : Int) : ℚ) := by
        have : ((x.num.toNat : Nat) : Int) = x.num := Int.toNat_of_nonneg (le_of_lt hnum)
        exact_mod_cast this
      rw [h1]
      exact Rat.num_div_den x
    rcases hr with h | ⟨hlo, hhi⟩
    · exact absurd h hz
    · obtain ⟨r, h1, h2⟩ := roundPos_near x.num.toNat x.den (by omega) hden
        (by rw [hcast]; exact hlo) (by rw [hcast]; exact hhi)
      rw [hcast] at h2
      refine ⟨r, ?_, h2⟩
      unfold ofRat
      have hn0 : x.num ≠ 0 := by omega
      simp only [hn0, if_false, hnum, if_true, h1]

example : seconds 25518293 = finite (mkRat 7355147190139593 288230376151711744) := by decide
example : divide (ofInt 1) (seconds 25518293) = finite (mkRat 2757580382734221 70368744177664) := by decide
example : mul (seconds 1000000) (finite 1000) = finite 1 := by decide

theorem ofInt_eq (n : Int) : ofInt n = ofRat (n : ℚ) := by
  unfold ofInt
  rw [Rat.mkRat_eq_div]
  simp

theorem divide_finite (x y : ℚ) (hy : y ≠ 0) :
    divide (finite x) (finite y) = ofRat (x / y) := by
  have hn : y.num ≠ 0 := Rat.num_ne_zero.mpr hy
  simp only [divide, hn, if_false]
  congr 1
  rw [Rat.divInt_eq_div]
  push_cast
  have hx : x = (x.num : ℚ) / (x.den : ℚ) := (Rat.num_div_den x).symm
  have hy2 : y = (y.num : ℚ) / (y.den : ℚ) := (Rat.num_div_den y).symm
  have hxd : (x.den : ℚ) ≠ 0 := by exact_mod_cast x.den_nz
  have hyd : (y.den : ℚ) ≠ 0 := by exact_mod_cast y.den_nz
  have hyn : (y.num : ℚ) ≠ 0 := by exact_mod_cast hn
  conv_rhs => rw [hx, hy2]
  field_simp
  exact Or.inl (mul_comm _ _)

theorem add_finite (x y : ℚ) : add (finite x) (finite y) = ofRat (x + y) := by
  simp only [add]
  congr 1
  rw [Rat.divInt_eq_div]
  push_cast
  have hx : x = (x.num : ℚ) / (x.den : ℚ) := (Rat.num_div_den x).symm
  have hy2 : y = (y.num : ℚ) / (y.den : ℚ) := (Rat.num_div_den y).symm
  have hxd : (x.den : ℚ) ≠ 0 := by exact_mod_cast x.den_nz
  have hyd : (y.den : ℚ) ≠ 0 := by exact_mod_cast y.den_nz
  conv_rhs => rw [hx, hy2]
  field_simp

theorem mul_finite (x y : ℚ) : mul (finite x) (finite y) = ofRat (x * y) := by
  simp only [mul]
  congr 1
  rw [Rat.divInt_eq_div]
  push_cast
  have hx : x = (x.num : ℚ) / (x.den : ℚ) := (Rat.num_div_den x).symm
  have hy2 : y = (y.num : ℚ) / (y.den : ℚ) := (Rat.num_div_den y).symm
  have hxd : (x.den : ℚ) ≠ 0 := by exact_mod_cast x.den_nz
  have hyd : (y.den : ℚ) ≠ 0 := by exact_mod_cast y.den_nz
  conv_rhs => rw [hx, hy2]
  field_simp

theorem unitRoundoff_pos : 0 < unitRoundoff := by norm_num [unitRoundoff]

theorem unitRoundoff_small : unitRoundoff ≤ 1 / 1000000 := by norm_num [unitRoundoff]

theorem tiny_nonneg : (0 : ℚ) ≤ 1 / 2 ^ 200 :=
  one_div_nonneg.mpr (pow_nonneg (by norm_num) 200)

theorem ofRat_within (x : ℚ) (hx0 : 0 ≤ x)
    (hr : x = 0 ∨ (1 / 2 ^ 200 ≤ x ∧ x ≤ 2 ^ 200)) :
    ∃ r, ofRat x = finite r ∧ (1 - unitRoundoff) * x ≤ r ∧ r ≤ (1 + unitRoundoff) * x := by
  have hrange : x = 0 ∨ ((2 : ℚ) ^ (-1022 : Int) ≤ x ∧ x ≤ (2 : ℚ) ^ (1000 : Int)) := by
    rcases hr with h | ⟨h1, h2⟩
    · exact Or.inl h
    · refine Or.inr ⟨le_trans ?_ h1, le_trans h2 ?_⟩
      · have e : (1 : ℚ) / 2 ^ 200 = (2 : ℚ) ^ (-200 : Int) := by norm_num [zpow_neg]
        rw [e]
        exact zpow_le_zpow_right₀ (by norm_num) (by norm_num)
      · have e : (2 : ℚ) ^ 200 = (2 : ℚ) ^ (200 : Int) := by norm_cast
        rw [e]
        exact zpow_le_zpow_right₀ (by norm_num) (by norm_num)
  obtain ⟨r, h1, h2⟩ := ofRat_near x hx0 hrange
  refine ⟨r, h1, ?_, ?_⟩
  · have := (abs_le.mp h2).1
    unfold unitRoundoff
    linarith
  · have := (abs_le.mp h2).2
    unfold unitRoundoff
    linarith

theorem ofInt_within (n : Int) (hn0 : 0 ≤ n) (hn : n < 2 ^ 63) :
    ∃ r, ofInt n = finite r ∧ (1 - unitRoundoff) * (n : ℚ) ≤ r ∧
      r ≤ (1 + unitRoundoff) * (n : ℚ) := by
  rw [ofInt_eq]
  have h0 : (0 : ℚ) ≤ n := by exact_mod_cast hn0
  refine ofRat_within (n : ℚ) h0 ?_
  by_cases hz : n = 0
  · exact Or.inl (by exact_mod_cast hz)
  · have h1 : (1 : ℚ) ≤ n := by
      have : (1 : Int) ≤ n := by omega
      exact_mod_cast this
    have h2 : (n : ℚ) ≤ 2 ^ 63 := by
      have : n ≤ 2 ^ 63 := le_of_lt hn
      exact_mod_cast this
    refine Or.inr ⟨le_trans (by norm_num) h1, le_trans h2 ?_⟩
    exact pow_le_pow_right₀ (by norm_num) (by norm_num)

/-! interval arithmetic with a relative error `u` -/

theorem interval_scale (u n k b c : ℚ) (hu : 0 ≤ u) (hu1 : u ≤ 1) (hk : 0 < k)
    (b1 : (1 - u) * n ≤ b) (b2 : b ≤ (1 + u) * n)
    (c1 : (1 - u) * (b / k) ≤ c) (c2 : c ≤ (1 + u) * (b / k)) :
    (1 - u) ^ 2 * (n / k) ≤ c ∧ c ≤ (1 + u) ^ 2 * (n / k) := by
  have h1 : (1 - u) * (n / k) ≤ b / k := by
    rw [← mul_div_assoc]
    exact div_le_div_of_nonneg_right b1 (le_of_lt hk)
  have h2 : b / k ≤ (1 + u) * (n / k) := by
    rw [← mul_div_assoc]
    exact div_le_div_of_nonneg_right b2 (le_of_lt hk)
  have hlo : (0 : ℚ) ≤ 1 - u := by linarith
  have hhi : (0 : ℚ) ≤ 1 + u := by linarith
  constructor
  · calc (1 - u) ^ 2 * (n / k) = (1 - u) * ((1 - u) * (n / k)) := by ring
      _ ≤ (1 - u) * (b / k) := mul_le_mul_of_nonneg_left h1 hlo
      _ ≤ c := c1
  · calc c ≤ (1 + u) * (b / k) := c2
      _ ≤ (1 + u) * ((1 + u) * (n / k)) := mul_le_mul_of_nonneg_left h2 hhi
      _ = (1 + u) ^ 2 * (n / k) := by ring

theorem interval_sum (u s1 s2 a c : ℚ) (hu : 0 ≤ u) (hu1 : u ≤ 1) (hs1 : 0 ≤ s1)
    (a1 : (1 - u) * s1 ≤ a) (a2 : a ≤ (1 + u) * s1)
    (c1 : (1 - u) ^ 2 * s2 ≤ c) (c2 : c ≤ (1 + u) ^ 2 * s2) :
    (1 - u) ^ 2 * (s1 + s2) ≤ a + c ∧ a + c ≤ (1 + u) ^ 2 * (s1 + s2) := by
  have h1 : (1 - u) ^ 2 * s1 ≤ (1 - u) * s1 := by
    have : 0 ≤ u * (1 - u) * s1 := mul_nonneg (mul_nonneg hu (by linarith)) hs1
    nlinarith
  have h2 : (1 + u) * s1 ≤ (1 + u) ^ 2 * s1 := by
    have : 0 ≤ u * (1 + u) * s1 := mul_nonneg (mul_nonneg hu (by linarith)) hs1
    nlinarith
  constructor
  · rw [mul_add]
    linarith
  · rw [mul_add]
    linarith

theorem interval_round (u lo hi x y r : ℚ) (hu : 0 ≤ u) (hu1 : u ≤ 1)
    (y1 : lo * x ≤ y) (y2 : y ≤ hi * x)
    (r1 : (1 - u) * y ≤ r) (r2 : r ≤ (1 + u) * y) :
    (1 - u) * lo * x ≤ r ∧ r ≤ (1 + u) * hi * x := by
  have hlo : (0 : ℚ) ≤ 1 - u := by linarith
  have hhi : (0 : ℚ) ≤ 1 + u := by linarith
  constructor
  · calc (1 - u) * lo * x = (1 - u) * (lo * x) := by ring
      _ ≤ (1 - u) * y := mul_le_mul_of_nonneg_left y1 hlo
      _ ≤ r := r1
  · calc r ≤ (1 + u) * y := r2
      _ ≤ (1 + u) * (hi * x) := mul_le_mul_of_nonneg_left y2 hhi
      _ = (1 + u) * hi * x := by ring

theorem interval_quotient (lo1 hi1 lo2 hi2 k s kf sf : ℚ) (hk : 0 ≤ k) (hs : 0 < s)
    (hlo1 : 0 ≤ lo1) (hlo2 : 0 < lo2) (hhi2 : 0 < hi2)
    (k1 : lo1 * k ≤ kf) (k2 : kf ≤ hi1 * k) (s1 : lo2 * s ≤ sf) (s2 : sf ≤ hi2 * s) :
    lo1 / hi2 * (k / s) ≤ kf / sf ∧ kf / sf ≤ hi1 / lo2 * (k / s) := by
  have hsf : 0 < sf := lt_of_lt_of_le (mul_pos hlo2 hs) s1
  have hkf : 0 ≤ kf := le_trans (mul_nonneg hlo1 hk) k1
  constructor
  · rw [div_mul_div_comm, div_le_div_iff₀ (mul_pos hhi2 hs) hsf]
    calc lo1 * k * sf ≤ kf * sf := mul_le_mul_of_nonneg_right k1 (le_of_lt hsf)
      _ ≤ kf * (hi2 * s) := mul_le_mul_of_nonneg_left s2 hkf
  · rw [div_mul_div_comm, div_le_div_iff₀ hsf (mul_pos hlo2 hs)]
    calc kf * (lo2 * s) ≤ kf * sf := mul_le_mul_of_nonneg_left s1 hkf
      _ ≤ hi1 * k * sf := mul_le_mul_of_nonneg_right k2 (le_of_lt hsf)

theorem seconds_within (d : Int) (hd : 0 < d) (hd2 : d < 2 ^ 63) :
    ∃ s, seconds d = finite s ∧
      (1 - unitRoundoff) ^ 3 * ((d : ℚ) / 1000000000) ≤ s ∧
      s ≤ (1 + unitRoundoff) ^ 3 * ((d : ℚ) / 1000000000) := by
  have hu := le_of_lt unitRoundoff_pos
  have hu1 : unitRoundoff ≤ 1 := le_trans unitRoundoff_small (by norm_num)
  have hsec0 : 0 ≤ d / 1000000000 := Int.ediv_nonneg (le_of_lt hd) (by norm_num)
  have hsec1 : d / 1000000000 < 2 ^ 63 :=
    lt_of_le_of_lt (Int.ediv_le_self _ (le_of_lt hd)) hd2
  have hns0 : 0 ≤ d % 1000000000 := Int.emod_nonneg _ (by norm_num)
  have hns1 : d % 1000000000 < 1000000000 := Int.emod_lt_of_pos _ (by norm_num)
  have hsplit : ((d / 1000000000 : Int) : ℚ) + ((d % 1000000000 : Int) : ℚ) / 1000000000
      = (d : ℚ) / 1000000000 := by
    have h := Int.ediv_add_emod d 1000000000
    have hq : (1000000000 : ℚ) * ((d / 1000000000 : Int) : ℚ) + ((d % 1000000000 : Int) : ℚ)
        = (d : ℚ) := by exact_mod_cast h
    field_simp
    linarith
  obtain ⟨a, ha, a1, a2⟩ := ofInt_within (d / 1000000000) hsec0 hsec1
  obtain ⟨b, hb, b1, b2⟩ := ofInt_within (d % 1000000000) hns0 (lt_trans hns1 (by norm_num))
  have hS1 : (0 : ℚ) ≤ ((d / 1000000000 : Int) : ℚ) := by exact_mod_cast hsec0
  have hN : (0 : ℚ) ≤ ((d % 1000000000 : Int) : ℚ) := by exact_mod_cast hns0
  have hNlt : ((d % 1000000000 : Int) : ℚ) ≤ 1000000000 := by exact_mod_cast le_of_lt hns1
  have hb0 : 0 ≤ b := le_trans (mul_nonneg (by linarith) hN) b1
  -- the quotient of the nanoseconds
  have hc : ∃ c, divide (finite b) (finite 1000000000) = finite c ∧
      (1 - unitRoundoff) * (b / 1000000000) ≤ c ∧ c ≤ (1 + unitRoundoff) * (b / 1000000000) := by
    rw [divide_finite b 1000000000 (by norm_num)]
    refine ofRat_within _ (div_nonneg hb0 (by norm_num)) ?_
    by_cases hz : d % 1000000000 = 0
    · left
      have hz2 : ((d % 1000000000 : Int) : ℚ) = 0 := by exact_mod_cast hz
      rw [hz2] at b1 b2
      have : b = 0 := le_antisymm (by linarith) (by linarith)
      rw [this]
      norm_num
    · right
      have h1 : (1 : ℚ) ≤ ((d % 1000000000 : Int) : ℚ) := by
        have : (1 : Int) ≤ d % 1000000000 := by omega
        exact_mod_cast this
      have hbl : 1 / 2 ≤ b := by
        have h3 : (1 : ℚ) / 2 ≤ (1 - unitRoundoff) * 1 := by
          have := unitRoundoff_small
          linarith
        exact le_trans h3 (le_trans (mul_le_mul_of_nonneg_left h1 (by linarith)) b1)
      have hbu : b ≤ 2000000000 := by
        have h3 : (1 + unitRoundoff) * ((d % 1000000000 : Int) : ℚ) ≤ 2 * 1000000000 :=
          mul_le_mul (by linarith) hNlt hN (by norm_num)
        linarith
      constructor
      · rw [le_div_iff₀ (by norm_num)]
        norm_num
        linarith
      · rw [div_le_iff₀ (by norm_num)]
        norm_num
        linarith
  obtain ⟨c, hc, c1, c2⟩ := hc
  obtain ⟨clo, chi⟩ := interval_scale unitRoundoff _ 1000000000 b c hu hu1 (by norm_num)
    b1 b2 c1 c2
  obtain ⟨sumlo, sumhi⟩ := interval_sum unitRoundoff _ _ a c hu hu1 hS1 a1 a2 clo chi
  rw [hsplit] at sumlo sumhi
  have hdq : (1 : ℚ) ≤ d := by
    have : (1 : Int) ≤ d := by omega
    exact_mod_cast this
  have hdq2 : (d : ℚ) ≤ 2 ^ 63 := by
    have : d ≤ 2 ^ 63 := le_of_lt hd2
    exact_mod_cast this
  have hD : (1 : ℚ) / 1000000000 ≤ (d : ℚ) / 1000000000 :=
    div_le_div_of_nonneg_right hdq (by norm_num)
  have hD2 : (d : ℚ) / 1000000000 ≤ 2 ^ 63 :=
    le_trans (div_le_self (by linarith) (by norm_num)) hdq2
  have hsq1 : (1 : ℚ) / 2 ≤ (1 - unitRoundoff) ^ 2 := by
    have := unitRoundoff_small
    nlinarith
  have hsq2 : (1 + unitRoundoff) ^ 2 ≤ 2 := by
    have := unitRoundoff_small
    nlinarith
  have hlow : (1 : ℚ) / 2 ^ 200 ≤ a + c := by
    have h4 : (1 : ℚ) / 2 * (1 / 1000000000) ≤ (1 - unitRoundoff) ^ 2 * ((d : ℚ) / 1000000000) :=
      mul_le_mul hsq1 hD (by norm_num) (by positivity)
    have h5 : (1 : ℚ) / 2 ^ 200 ≤ 1 / 2 * (1 / 1000000000) := by norm_num
    linarith
  have hupp : a + c ≤ 2 ^ 200 := by
    have h4 : (1 + unitRoundoff) ^ 2 * ((d : ℚ) / 1000000000) ≤ 2 * 2 ^ 63 :=
      mul_le_mul hsq2 hD2 (by linarith) (by norm_num)
    have h5 : (2 : ℚ) * 2 ^ 63 ≤ 2 ^ 200 := by norm_num
    linarith
  obtain ⟨s, hs, s1, s2⟩ := ofRat_within (a + c) (le_trans tiny_nonneg hlow)
    (Or.inr ⟨hlow, hupp⟩)
  obtain ⟨r1, r2⟩ := interval_round unitRoundoff _ _ _ (a + c) s hu hu1 sumlo sumhi s1 s2
  refine ⟨s, ?_, ?_, ?_⟩
  · unfold seconds
    simp only [le_of_lt hd, if_true, ha, hb, hc, add_finite, hs]
  · calc (1 - unitRoundoff) ^ 3 * ((d : ℚ) / 1000000000)
        = (1 - unitRoundoff) * (1 - unitRoundoff) ^ 2 * ((d : ℚ) / 1000000000) := by ring
      _ ≤ s := r1
  · calc s ≤ (1 + unitRoundoff) * (1 + unitRoundoff) ^ 2 * ((d : ℚ) / 1000000000) := r2
      _ = (1 + unitRoundoff) ^ 3 * ((d : ℚ) / 1000000000) := by ring

theorem roundoff_upper :
    (1 + unitRoundoff) * ((1 + unitRoundoff) / (1 - unitRoundoff) ^ 3) ≤ 1 + 1 / 2 ^ 50 := by
  norm_num [unitRoundoff]

theorem roundoff_lower :
    1 - 1 / 2 ^ 50 ≤ (1 - unitRoundoff) * ((1 - unitRoundoff) / (1 + unitRoundoff) ^ 3) := by
  norm_num [unitRoundoff]

theorem throughput_within (k : Nat) (d : Int) (hk : 0 < k) (hk2 : k < 2 ^ 63)
    (hd : 0 < d) (hd2 : d < 2 ^ 63) :
    ∃ tps, divide (ofInt (k : Int)) (seconds d) = finite tps ∧
      |tps - (k : ℚ) / ((d : ℚ) / 1000000000)| ≤ (k : ℚ) / ((d : ℚ) / 1000000000) / 2 ^ 50 := by
  have hu := le_of_lt unitRoundoff_pos
  have hu1 : unitRoundoff ≤ 1 := le_trans unitRoundoff_small (by norm_num)
  have hus := unitRoundoff_small
  obtain ⟨kf, hkf, k1, k2⟩ := ofInt_within (k : Int) (by omega) (by exact_mod_cast hk2)
  obtain ⟨sf, hsf, s1, s2⟩ := seconds_within d hd hd2
  have hkq : (1 : ℚ) ≤ (k : ℚ) := by exact_mod_cast hk
  have hkq2 : (k : ℚ) ≤ 2 ^ 63 := by exact_mod_cast le_of_lt hk2
  have hdq : (1 : ℚ) ≤ (d : ℚ) := by
    have : (1 : Int) ≤ d := by omega
    exact_mod_cast this
  have hdq2 : (d : ℚ) ≤ 2 ^ 63 := by
    have : d ≤ 2 ^ 63 := le_of_lt hd2
    exact_mod_cast this
  have hS : (0 : ℚ) < (d : ℚ) / 1000000000 := div_pos (by linarith) (by norm_num)
  have hlo3 : (0 : ℚ) < (1 - unitRoundoff) ^ 3 := pow_pos (by linarith) 3
  have hhi3 : (0 : ℚ) < (1 + unitRoundoff) ^ 3 := pow_pos (by linarith) 3
  have hsfpos : 0 < sf := lt_of_lt_of_le (mul_pos hlo3 hS) s1
  have k1b : (1 - unitRoundoff) * ((k : Int) : ℚ) ≤ kf := k1
  have k2b : kf ≤ (1 + unitRoundoff) * ((k : Int) : ℚ) := k2
  have hcast : (((k : Int) : ℚ)) = (k : ℚ) := by norm_cast
  rw [hcast] at k1b k2b
  obtain ⟨q1, q2⟩ := interval_quotient (1 - unitRoundoff) (1 + unitRoundoff)
    ((1 - unitRoundoff) ^ 3) ((1 + unitRoundoff) ^ 3) (k : ℚ) ((d : ℚ) / 1000000000) kf sf
    (by linarith) hS (by linarith) hlo3 hhi3 k1b k2b s1 s2
  -- the exact quotient and its range
  have hT : (0 : ℚ) < (k : ℚ) / ((d : ℚ) / 1000000000) := div_pos (by linarith) hS
  have hTlo : (1 : ℚ) / 2 ^ 63 ≤ (k : ℚ) / ((d : ℚ) / 1000000000) := by
    rw [div_le_div_iff₀ (by norm_num) hS]
    have h1 : (d : ℚ) / 1000000000 ≤ 2 ^ 63 :=
      le_trans (div_le_self (by linarith) (by norm_num)) hdq2
    calc 1 * ((d : ℚ) / 1000000000) ≤ 1 * 2 ^ 63 := by linarith
      _ ≤ (k : ℚ) * 2 ^ 63 := mul_le_mul_of_nonneg_right hkq (by norm_num)
  have hThi : (k : ℚ) / ((d : ℚ) / 1000000000) ≤ 2 ^ 93 := by
    rw [div_le_iff₀ hS]
    have h1 : (1 : ℚ) / 1000000000 ≤ (d : ℚ) / 1000000000 :=
      div_le_div_of_nonneg_right hdq (by norm_num)
    calc (k : ℚ) ≤ 2 ^ 63 := hkq2
      _ ≤ 2 ^ 93 * (1 / 1000000000) := by norm_num
      _ ≤ 2 ^ 93 * ((d : ℚ) / 1000000000) := mul_le_mul_of_nonneg_left h1 (by norm_num)
  have hc1 : (1 : ℚ) / 2 ≤ (1 - unitRoundoff) / (1 + unitRoundoff) ^ 3 := by
    rw [le_div_iff₀ hhi3]
    norm_num [unitRoundoff]
  have hc2 : (1 + unitRoundoff) / (1 - unitRoundoff) ^ 3 ≤ 2 := by
    rw [div_le_iff₀ hlo3]
    norm_num [unitRoundoff]
  have hc0 : (0 : ℚ) ≤ (1 + unitRoundoff) / (1 - unitRoundoff) ^ 3 :=
    div_nonneg (by linarith) (le_of_lt hlo3)
  have hqlo : (1 : ℚ) / 2 ^ 200 ≤ kf / sf := by
    have h3 : (1 : ℚ) / 2 * (1 / 2 ^ 63) ≤
        (1 - unitRoundoff) / (1 + unitRoundoff) ^ 3 * ((k : ℚ) / ((d : ℚ) / 1000000000)) :=
      mul_le_mul hc1 hTlo (by norm_num) (le_trans (by norm_num) hc1)
    have h4 : (1 : ℚ) / 2 ^ 200 ≤ 1 / 2 * (1 / 2 ^ 63) := by norm_num
    linarith
  have hqhi : kf / sf ≤ 2 ^ 200 := by
    have h3 : (1 + unitRoundoff) / (1 - unitRoundoff) ^ 3 * ((k : ℚ) / ((d : ℚ) / 1000000000))
        ≤ 2 * 2 ^ 93 := mul_le_mul hc2 hThi (le_of_lt hT) (by norm_num)
    have h4 : (2 : ℚ) * 2 ^ 93 ≤ 2 ^ 200 := by norm_num
    linarith
  obtain ⟨r, hr, r1, r2⟩ := ofRat_within (kf / sf) (le_trans tiny_nonneg hqlo)
    (Or.inr ⟨hqlo, hqhi⟩)
  obtain ⟨t1, t2⟩ := interval_round unitRoundoff _ _ _ (kf / sf) r hu hu1 q1 q2 r1 r2
  refine ⟨r, ?_, ?_⟩
  · rw [hkf, hsf, divide_finite kf sf (ne_of_gt hsfpos), hr]
  · rw [abs_le]
    constructor
    · have h5 := mul_le_mul_of_nonneg_right roundoff_lower (le_of_lt hT)
      have h6 : (1 - 1 / 2 ^ 50) * ((k : ℚ) / ((d : ℚ) / 1000000000)) ≤ r := le_trans h5 t1
      linarith
    · have h5 := mul_le_mul_of_nonneg_right roundoff_upper (le_of_lt hT)
      have h6 : r ≤ (1 + 1 / 2 ^ 50) * ((k : ℚ) / ((d : ℚ) / 1000000000)) := le_trans t2 h5
      linarith

/-- The milliseconds `d.Seconds() * 1000` of a duration. -/
theorem millis_within (d : Int) (hd : 0 < d) (hd2 : d < 2 ^ 63) :
    ∃ ms, mul (seconds d) (finite 1000) = finite ms ∧
      |ms - (d : ℚ) / 1000000| ≤ (d : ℚ) / 1000000 / 2 ^ 50 := by
  have hu := le_of_lt unitRoundoff_pos
  have hu1 : unitRoundoff ≤ 1 := le_trans unitRoundoff_small (by norm_num)
  obtain ⟨sf, hsf, s1, s2⟩ := seconds_within d hd hd2
  have hdq : (1 : ℚ) ≤ (d : ℚ) := by
    have : (1 : Int) ≤ d := by omega
    exact_mod_cast this
  have hdq2 : (d : ℚ) ≤ 2 ^ 63 := by
    have : d ≤ 2 ^ 63 := le_of_lt hd2
    exact_mod_cast this
  have hM : (0 : ℚ) < (d : ℚ) / 1000000 := div_pos (by linarith) (by norm_num)
  have e : (d : ℚ) / 1000000000 * 1000 = (d : ℚ) / 1000000 := by ring
  have m1 : (1 - unitRoundoff) ^ 3 * ((d : ℚ) / 1000000) ≤ sf * 1000 := by
    have := mul_le_mul_of_nonneg_right s1 (by norm_num : (0 : ℚ) ≤ 1000)
    rw [mul_assoc, e] at this
    exact this
  have m2 : sf * 1000 ≤ (1 + unitRoundoff) ^ 3 * ((d : ℚ) / 1000000) := by
    have := mul_le_mul_of_nonneg_right s2 (by norm_num : (0 : ℚ) ≤ 1000)
    rw [mul_assoc, e] at this
    exact this
  have hc1 : (1 : ℚ) / 2 ≤ (1 - unitRoundoff) ^ 3 := by norm_num [unitRoundoff]
  have hc2 : (1 + unitRoundoff) ^ 3 ≤ 2 := by norm_num [unitRoundoff]
  have hMlo : (1 : ℚ) / 1000000 ≤ (d : ℚ) / 1000000 :=
    div_le_div_of_nonneg_right hdq (by norm_num)
  have hMhi : (d : ℚ) / 1000000 ≤ 2 ^ 63 :=
    le_trans (div_le_self (by linarith) (by norm_num)) hdq2
  have hlo : (1 : ℚ) / 2 ^ 200 ≤ sf * 1000 := by
    have h3 : (1 : ℚ) / 2 * (1 / 1000000) ≤ (1 - unitRoundoff) ^ 3 * ((d : ℚ) / 1000000) :=
      mul_le_mul hc1 hMlo (by norm_num) (le_trans (by norm_num) hc1)
    have h4 : (1 : ℚ) / 2 ^ 200 ≤ 1 / 2 * (1 / 1000000) := by norm_num
    linarith
  have hhi : sf * 1000 ≤ 2 ^ 200 := by
    have h3 : (1 + unitRoundoff) ^ 3 * ((d : ℚ) / 1000000) ≤ 2 * 2 ^ 63 :=
      mul_le_mul hc2 hMhi (le_of_lt hM) (by norm_num)
    have h4 : (2 : ℚ) * 2 ^ 63 ≤ 2 ^ 200 := by norm_num
    linarith
  obtain ⟨r, hr, r1, r2⟩ := ofRat_within (sf * 1000) (le_trans tiny_nonneg hlo)
    (Or.inr ⟨hlo, hhi⟩)
  obtain ⟨t1, t2⟩ := interval_round unitRoundoff _ _ _ (sf * 1000) r hu hu1 m1 m2 r1 r2
  have c1 : (1 : ℚ) - 1 / 2 ^ 50 ≤ (1 - unitRoundoff) * (1 - unitRoundoff) ^ 3 := by
    norm_num [unitRoundoff]
  have c2 : (1 + unitRoundoff) * (1 + unitRoundoff) ^ 3 ≤ 1 + 1 / 2 ^ 50 := by
    norm_num [unitRoundoff]
  refine ⟨r, ?_, ?_⟩
  · rw [hsf, mul_finite, hr]
  · rw [abs_le]
    constructor
    · have h5 := mul_le_mul_of_nonneg_right c1 (le_of_lt hM)
      have h6 : (1 - 1 / 2 ^ 50) * ((d : ℚ) / 1000000) ≤ r := le_trans h5 t1
      linarith
    · have h5 := mul_le_mul_of_nonneg_right c2 (le_of_lt hM)
      have h6 : r ≤ (1 + 1 / 2 ^ 50) * ((d : ℚ) / 1000000) := le_trans t2 h5
      linarith

end Rounding

/-- C1: `validateStateConfig` returns true exactly when the four fingerprint
fields of the loaded state (gateway MAC, input path, output path,
benchmarking-disabled flag) equal the values of the current run, and it returns
false as soon as one of the four differs. -/
theorem validateStateConfig_true_iff (flags : Flags) (state : ScanState) :
    (validateStateConfig flags state = true ↔
      (state.Config.GatewayMAC = flags.gatewayMAC ∧
       state.Config.InputFile = flags.inputFile ∧
       state.Config.OutputFile = flags.outputFile ∧
       state.Config.DisableBench = flags.disableBench)) ∧
    ((state.Config.GatewayMAC ≠ flags.gatewayMAC ∨
      state.Config.InputFile ≠ flags.inputFile ∨
      state.Config.OutputFile ≠ flags.outputFile ∨
      state.Config.DisableBench ≠ flags.disableBench) →
      validateStateConfig flags state = false) := by
  have key : validateStateConfig flags state = true ↔
      (state.Config.GatewayMAC = flags.gatewayMAC ∧
       state.Config.InputFile = flags.inputFile ∧
       state.Config.OutputFile = flags.outputFile ∧
       state.Config.DisableBench = flags.disableBench) := by
    simp [validateStateConfig, and_assoc]
  refine ⟨key, fun h => ?_⟩
  cases hv : validateStateConfig flags state with
  | false => rfl
  | true =>
    obtain ⟨h1, h2, h3, h4⟩ := key.mp hv
    rcases h with h | h | h | h
    · exact absurd h1 h
    · exact absurd h2 h
    · exact absurd h3 h
    · exact absurd h4 h

/-- C1 at a concrete pair: a state saved under another output path is rejected,
and the state saved under the same four values is accepted. -/
theorem validateStateConfig_true_iff_witness :
    validateStateConfig sampleFlags staleState = false ∧
      validateStateConfig sampleFlags sampleState = true :=
  ⟨(validateStateConfig_true_iff sampleFlags staleState).2
      (Or.inr (Or.inr (Or.inl (by decide)))),
    (validateStateConfig_true_iff sampleFlags sampleState).1.mpr (by decide)⟩

/-! ### float64 order and the sort -/

theorem insertLeft_perm {α : Type} (less : α → α → Bool) (x : α) (l : List α) :
    (insertLeft less x l).Perm (x :: l) := by
  induction l with
  | nil => exact List.Perm.refl _
  | cons p rest ih =>
    unfold insertLeft
    split
    · exact (List.Perm.cons p ih).trans (List.Perm.swap x p rest)
    · exact List.Perm.refl _

theorem foldl_insertLeft_perm {α : Type} (less : α → α → Bool) (data acc : List α) :
    (data.foldl (fun sorted x => insertLeft less x sorted) acc).Perm (data ++ acc) := by
  induction data generalizing acc with
  | nil => exact List.Perm.refl _
  | cons x rest ih =>
    simp only [List.foldl_cons, List.cons_append]
    refine (ih _).trans ?_
    refine (List.Perm.append_left rest (insertLeft_perm less x acc)).trans ?_
    exact List.perm_middle

theorem insertionSort_perm {α : Type} (less : α → α → Bool) (data : List α) :
    (insertionSort less data).Perm data := by
  unfold insertionSort
  refine (List.reverse_perm _).trans ?_
  simpa using foldl_insertLeft_perm less data []

theorem swapAt_perm {α : Type} (data : List α) (i j : Nat) : (swapAt data i j).Perm data := by
  classical
  unfold swapAt
  cases hi : data[i]? with
  | none => exact List.Perm.refl _
  | some x =>
    cases hj : data[j]? with
    | none => exact List.Perm.refl _
    | some y =>
      simp only
      obtain ⟨hi1, hi2⟩ := List.getElem?_eq_some_iff.mp hi
      obtain ⟨hj1, hj2⟩ := List.getElem?_eq_some_iff.mp hj
      rw [List.perm_iff_count]
      intro a
      have hj3 : j < (data.set i y).length := by simpa using hj1
      have hget : (data.set i y)[j] = y := by
        rw [List.getElem_set]
        split
        · rfl
        · exact hj2
      rw [List.count_set _ _ _ _ hj3, List.count_set _ _ _ _ hi1, hget, hi2]
      have hx : x ∈ data := by
        rw [← hi2]
        exact List.getElem_mem _
      by_cases hxa : x = a
      · subst hxa
        have hpos : 0 < List.count x data := List.count_pos_iff.mpr hx
        by_cases hyx : y = x
        · subst hyx
          simp
          omega
        · simp [hyx]
          omega
      · by_cases hya : y = a
        · subst hya
          simp [hxa]
        · simp [hxa, hya]

theorem applySwaps_perm {α : Type} (swaps : List (Nat × Nat)) (data : List α) :
    (applySwaps swaps data).Perm data := by
  unfold applySwaps
  induction swaps generalizing data with
  | nil => exact List.Perm.refl _
  | cons s rest ih =>
    simp only [List.foldl_cons]
    exact (ih _).trans (swapAt_perm data s.1 s.2)

theorem sortSlice_perm {α : Type} (pdqSwaps : (α → α → Bool) → List α → List (Nat × Nat))
    (less : α → α → Bool) (data : List α) :
    (sortSlice pdqSwaps less data).Perm data := by
  unfold sortSlice
  split
  · exact insertionSort_perm less data
  · exact applySwaps_perm _ data


theorem splitChars_afterLastColon (s : List Char) :
    (afterLastColon s = none → splitChars ':' s = [s]) ∧
    (∀ t, afterLastColon s = some t →
      2 ≤ (splitChars ':' s).length ∧ (splitChars ':' s).getLast? = some t) := by
  induction s with
  | nil => simp [afterLastColon, splitChars]
  | cons c cs ih =>
    obtain ⟨ih1, ih2⟩ := ih
    cases hcs : afterLastColon cs with
    | none =>
      have hsplit := ih1 hcs
      by_cases hc : c = ':'
      · subst hc
        simp [afterLastColon, splitChars, hcs, hsplit]
      · simp [afterLastColon, splitChars, hcs, hsplit, hc]
    | some t =>
      obtain ⟨hlen, hlast⟩ := ih2 t hcs
      by_cases hc : c = ':'
      · subst hc
        simp only [afterLastColon, splitChars, hcs, if_true]
        refine ⟨by simp, ?_⟩
        intro u hu
        cases hu
        refine ⟨by simp; omega, ?_⟩
        cases hsp : splitChars ':' cs with
        | nil => simp [hsp] at hlen
        | cons p ps => rw [hsp] at hlast; simpa [List.getLast?_cons_cons] using hlast
      · simp only [afterLastColon, splitChars, hcs, if_neg hc]
        refine ⟨by simp, ?_⟩
        intro u hu
        cases hu
        cases hsp : splitChars ':' cs with
        | nil => simp [hsp] at hlen
        | cons p ps =>
          rw [hsp] at hlast hlen
          cases ps with
          | nil => simp at hlen
          | cons q qs =>
            refine ⟨by simp, ?_⟩
            simpa [List.getLast?_cons_cons] using hlast

theorem trimSuffix_b (t : List Char) :
    TrimSuffix (String.mk t) "b" = String.mk (dropTrailingB t) := by
  have hb : ("b" : String).data = ['b'] := rfl
  rcases List.eq_nil_or_concat t with rfl | ⟨init, c, rfl⟩
  · simp [TrimSuffix, dropTrailingB, hb]
  · by_cases hc : c = 'b'
    · subst hc
      simp [TrimSuffix, dropTrailingB, hb]
    · have hns : ¬ (['b'] <:+ init ++ [c]) := by
        rintro ⟨u, hu⟩
        have h2 := List.append_inj_right' hu rfl
        simp at h2
        exact hc h2.symm
      simp [TrimSuffix, dropTrailingB, hb, hc, hns]

theorem getLastD_map_mk (l : List (List Char)) (t : List Char) (h : l.getLast? = some t) :
    (l.map String.mk).getLastD "" = String.mk t := by
  rw [List.getLastD_eq_getLast?, List.getLast?_map, h]
  rfl

theorem parseModelSize_eq_spec (ParseFloat : String → Option Float64) (model : String) :
    parseModelSize ParseFloat model = parseModelSizeSpec ParseFloat model := by
  obtain ⟨h1, h2⟩ := splitChars_afterLastColon model.data
  unfold parseModelSize parseModelSizeSpec Split
  cases hcs : afterLastColon model.data with
  | none => simp [h1 hcs]
  | some t =>
    obtain ⟨hlen, hlast⟩ := h2 t hcs
    have hnot : ¬ ((List.map String.mk (splitChars ':' model.data)).length < 2) := by
      simp; omega
    simp only [hnot, if_false, getLastD_map_mk _ _ hlast, trimSuffix_b]
    cases ParseFloat (String.mk (dropTrailingB t)) <;> rfl

theorem afterLastColon_none (s : List Char) (h : ':' ∉ s) : afterLastColon s = none := by
  induction s with
  | nil => rfl
  | cons c cs ih =>
    have hc : c ≠ ':' := fun e => h (e ▸ List.mem_cons_self _ _)
    have hcs : ':' ∉ cs := fun m => h (List.mem_cons_of_mem _ m)
    simp [afterLastColon, ih hcs, hc]

theorem afterLastColon_append (pre suffix : List Char) (h : ':' ∉ suffix) :
    afterLastColon (pre ++ ':' :: suffix) = some suffix := by
  induction pre with
  | nil => simp [afterLastColon, afterLastColon_none suffix h]
  | cons c cs ih => simp [afterLastColon, ih]

/-- C4: `parseModelSize` agrees with the reference definition on every name: the
size is what the text after the last `:`, with one trailing `b` removed, parses
as, and 0 when that text does not parse; a name without `:` has size 0. -/
theorem parseModelSize_refines_spec (ParseFloat : String → Option Float64) (model : String) :
    parseModelSize ParseFloat model = parseModelSizeSpec ParseFloat model ∧
    (':' ∉ model.data → parseModelSize ParseFloat model = Float64.zero) ∧
    (∀ pre suffix : List Char, model.data = pre ++ ':' :: suffix → ':' ∉ suffix →
      (∀ size, ParseFloat (String.mk (dropTrailingB suffix)) = some size →
        parseModelSize ParseFloat model = size) ∧
      (ParseFloat (String.mk (dropTrailingB suffix)) = none →
        parseModelSize ParseFloat model = Float64.zero)) := by
  refine ⟨parseModelSize_eq_spec ParseFloat model, fun h => ?_, fun pre suffix hm hs => ?_⟩
  · rw [parseModelSize_eq_spec]
    simp [parseModelSizeSpec, afterLastColon_none _ h]
  · rw [parseModelSize_eq_spec]
    unfold parseModelSizeSpec
    rw [hm, afterLastColon_append pre suffix hs]
    refine ⟨fun size hp => ?_, fun hp => ?_⟩ <;> simp [hp]

/-- C4 at concrete names: the suffix `7b` gives 7, an unparsable suffix gives 0
and a name without `:` gives 0. -/
theorem parseModelSize_refines_spec_witness :
    parseModelSize parseFloatSimple "deepseek-r1:7b" = Float64.finite 7 ∧
    parseModelSize parseFloatSimple "deepseek-r1:latest" = Float64.zero ∧
    parseModelSize parseFloatSimple "7b" = Float64.zero :=
  ⟨((parseModelSize_refines_spec parseFloatSimple "deepseek-r1:7b").2.2
      "deepseek-r1".data "7b".data (by decide) (by decide)).1 (Float64.finite 7) (by decide),
   ((parseModelSize_refines_spec parseFloatSimple "deepseek-r1:latest").2.2
      "deepseek-r1".data "latest".data (by decide) (by decide)).2 (by decide),
   (parseModelSize_refines_spec parseFloatSimple "7b").2.1 (by decide)⟩

/-! ### the worker step -/

theorem sentResults_append (xs ys : List Event) :
    sentResults (xs ++ ys) = sentResults xs ++ sentResults ys := by
  induction xs with
  | nil => rfl
  | cons e rest ih => cases e <;> simp [sentResults, ih]

theorem sentResults_benchRequests (flags : Flags) (ip : String) (models : List String) :
    sentResults (benchRequests flags ip models) = [] := by
  unfold benchRequests
  split
  · induction models with
    | nil => rfl
    | cons m rest ih => simpa [sentResults] using ih
  · rfl

/-- The result the probe block sends for an address, when it sends one. -/
theorem sentResults_probeAddress (flags : Flags) (env : Env) (ip : String) :
    sentResults (probeAddress flags env ip) =
      if checkPort env ip = true ∧ checkOllama env ip = true ∧ getModels env ip ≠ [] then
        [{ IP := ip,
           Models := (sortModels env.ParseFloat env.pdqSwaps (getModels env ip)).map (buildInfo flags env ip) }]
      else [] := by
  unfold probeAddress
  by_cases hp : checkPort env ip = true
  · by_cases ho : checkOllama env ip = true
    · by_cases hm : getModels env ip = []
      · simp [hp, ho, hm, sentResults]
      · have hlen : (getModels env ip).length > 0 := List.length_pos.mpr hm
        simp [hp, ho, hm, hlen, sentResults, sentResults_append, sentResults_benchRequests]
    · simp [hp, ho, sentResults]
  · simp [hp, sentResults]

theorem mapGet_mapSet_self (m : List (String × Bool)) (key : String) (val : Bool) :
    mapGet (mapSet m key val) key = val := by
  induction m with
  | nil => simp [mapSet, mapGet]
  | cons kv rest ih =>
    obtain ⟨k, v⟩ := kv
    by_cases h : k = key
    · simp [mapSet, mapGet, h]
    · simp [mapSet, mapGet, h, ih]

theorem sentResults_workerBody (flags : Flags) (env : Env) (ip : String) (w : World) :
    sentResults (workerBody flags env ip w).trace =
      sentResults w.trace ++
        (if mapGet w.state.ScannedIPs ip = true then []
         else sentResults (probeAddress flags env ip)) := by
  unfold workerBody
  by_cases h : mapGet w.state.ScannedIPs ip = true
  · simp [h, sentResults_append, sentResults]
  · simp [h, sentResults_append, sentResults]

/-- C2, as amended: with benchmarking disabled, a worker step adds at most the
one result of its address to the results sent; that result has one record per
model that passed the name filter, in sorted order, and every record has the
status written by the worker, "发现" (discovered), with zero first-token latency
and zero tokens per second. -/
theorem worker_disabled_records (flags : Flags) (env : Env) (ip : String) (w : World)
    (hd : flags.disableBench = true) :
    ∃ new : List ScanResult,
      sentResults (workerBody flags env ip w).trace = sentResults w.trace ++ new ∧
      new.length ≤ 1 ∧
      ∀ result ∈ new,
        result.IP = ip ∧
        result.Models.map (fun info => info.Name) = sortModels env.ParseFloat env.pdqSwaps (getModels env ip) ∧
        result.Models.length = (getModels env ip).length ∧
        ∀ info ∈ result.Models,
          info.Status = "发现" ∧ info.FirstTokenDelay = 0 ∧ info.TokensPerSec = Float64.zero := by
  refine ⟨_, sentResults_workerBody flags env ip w, ?_, ?_⟩
  · rw [sentResults_probeAddress]
    split <;> [simp; (split <;> simp)]
  · intro result hr
    rw [sentResults_probeAddress] at hr
    split at hr
    · simp at hr
    · split at hr
      · simp only [List.mem_singleton] at hr
        subst hr
        refine ⟨rfl, ?_, ?_, ?_⟩
        · simp [buildInfo, hd, Function.comp_def]
        · simpa using (sortSlice_perm _ _ (getModels env ip)).length_eq
        · intro info hinfo
          simp only [List.mem_map] at hinfo
          obtain ⟨m, _, rfl⟩ := hinfo
          simp [buildInfo, hd]
      · simp at hr

/-- C2 as amended, at the reachable address of the sample list. -/
theorem worker_disabled_records_witness :
    ∃ new : List ScanResult,
      sentResults (workerBody sampleFlags sampleEnv "10.0.0.2" sampleWorld).trace
        = sentResults sampleWorld.trace ++ new ∧
      new.length ≤ 1 ∧
      ∀ result ∈ new,
        result.IP = "10.0.0.2" ∧
        result.Models.map (fun info => info.Name)
          = sortModels sampleEnv.ParseFloat sampleEnv.pdqSwaps (getModels sampleEnv "10.0.0.2") ∧
        result.Models.length = (getModels sampleEnv "10.0.0.2").length ∧
        ∀ info ∈ result.Models,
          info.Status = "发现" ∧ info.FirstTokenDelay = 0 ∧ info.TokensPerSec = Float64.zero :=
  worker_disabled_records sampleFlags sampleEnv "10.0.0.2" sampleWorld rfl

/-- C2 fails as stated: with benchmarking disabled the worker step at the
reachable sample address sends one result with two records whose status is
"发现", while `benchmarkModel` reports "未测试" for the disabled case; so the
records do not carry the status "未测试". -/
theorem worker_disabled_status_not_untested :
    sampleFlags.disableBench = true ∧
    sentResults (workerBody sampleFlags sampleEnv "10.0.0.2" sampleWorld).trace =
      [{ IP := "10.0.0.2",
         Models := [
           { Name := "deepseek-r1:7b", FirstTokenDelay := 0, TokensPerSec := Float64.zero,
             Status := "发现" },
           { Name := "deepseek-r1:14b", FirstTokenDelay := 0, TokensPerSec := Float64.zero,
             Status := "发现" }] }] ∧
    benchmarkModel sampleFlags sampleEnv "10.0.0.2" "deepseek-r1:7b"
      = (0, Float64.zero, "未测试") ∧
    ¬ (∀ result ∈ sentResults (workerBody sampleFlags sampleEnv "10.0.0.2" sampleWorld).trace,
        ∀ info ∈ result.Models, info.Status = "未测试") := by
  decide

/-! ### the benchmark -/

theorem scanLines_run (clock : Nat → Int) (init : List Chunk)
    (hinit : ∀ c ∈ init, c ≠ Chunk.object (DoneField.boolean true)) (v : BenchVars)
    (hv : 0 < v.tokenCount) :
    scanLines clock (init ++ [Chunk.object (DoneField.boolean true)]) v =
      { firstToken := v.firstToken, lastToken := clock (v.calls + init.length),
        tokenCount := v.tokenCount + init.length + 1, calls := v.calls + init.length + 1 } := by
  induction init generalizing v with
  | nil =>
    have h0 : v.tokenCount ≠ 0 := by omega
    simp [scanLines, h0]
  | cons c rest ih =>
    have h0 : v.tokenCount ≠ 0 := by omega
    have hrest : ∀ d ∈ rest, d ≠ Chunk.object (DoneField.boolean true) :=
      fun d hd => hinit d (List.mem_cons_of_mem _ hd)
    have hc : c ≠ Chunk.object (DoneField.boolean true) := hinit c (List.mem_cons_self _ _)
    cases c with
    | malformed =>
      simp only [List.cons_append, scanLines, h0, if_false, List.append_eq]
      rw [ih hrest _ (by simp)]
      simp only [List.length_cons, BenchVars.mk.injEq, true_and]
      refine ⟨by congr 1; omega, by omega, by omega⟩
    | object done =>
      have hdone : done ≠ DoneField.boolean true := fun e => hc (by rw [e])
      simp only [List.cons_append, scanLines, h0, if_false, hdone, List.append_eq]
      rw [ih hrest _ (by simp)]
      simp only [List.length_cons, BenchVars.mk.injEq, true_and]
      refine ⟨by congr 1; omega, by omega, by omega⟩

theorem scanLines_first (clock : Nat → Int) (init : List Chunk)
    (hinit : ∀ c ∈ init, c ≠ Chunk.object (DoneField.boolean true)) :
    scanLines clock (init ++ [Chunk.object (DoneField.boolean true)])
        { firstToken := 0, lastToken := 0, tokenCount := 0, calls := 1 } =
      { firstToken := clock 1, lastToken := clock (init.length + 2),
        tokenCount := init.length + 1, calls := init.length + 3 } := by
  cases init with
  | nil => simp [scanLines]
  | cons c rest =>
    have hrest : ∀ d ∈ rest, d ≠ Chunk.object (DoneField.boolean true) :=
      fun d hd => hinit d (List.mem_cons_of_mem _ hd)
    have hc : c ≠ Chunk.object (DoneField.boolean true) := hinit c (List.mem_cons_self _ _)
    cases c with
    | malformed =>
      simp only [List.cons_append, scanLines, if_true, List.append_eq]
      rw [scanLines_run clock rest hrest _ (by simp)]
      simp only [List.length_cons, BenchVars.mk.injEq, true_and]
      refine ⟨by congr 1; omega, by omega, by omega⟩
    | object done =>
      have hdone : done ≠ DoneField.boolean true := fun e => hc (by rw [e])
      simp only [List.cons_append, scanLines, if_true, hdone, if_false, List.append_eq]
      rw [scanLines_run clock rest hrest _ (by simp)]
      simp only [List.length_cons, BenchVars.mk.injEq, true_and]
      refine ⟨by congr 1; omega, by omega, by omega⟩

theorem clock_mono (clock : Nat → Int) (hmono : ∀ i, clock i ≤ clock (i + 1)) (i j : Nat)
    (hij : i ≤ j) : clock i ≤ clock j := by
  induction j with
  | zero =>
    have : i = 0 := by omega
    subst this
    exact le_refl _
  | succ n ih =>
    rcases Nat.lt_or_ge i (n + 1) with h | h
    · exact le_trans (ih (by omega)) (hmono n)
    · have : i = n + 1 := by omega
      subst this
      exact le_refl _

theorem takeTokens_short (lines : List StreamLine)
    (hshort : ∀ l ∈ lines, l.size < MaxScanTokenSize) :
    takeTokens lines = lines.map StreamLine.chunk := by
  induction lines with
  | nil => rfl
  | cons l rest ih =>
    have h1 : l.size < MaxScanTokenSize := hshort l (List.mem_cons_self _ _)
    have h2 : ∀ x ∈ rest, x.size < MaxScanTokenSize :=
      fun x hx => hshort x (List.mem_cons_of_mem _ hx)
    simp only [takeTokens, h1, if_true, List.map_cons, ih h2]

theorem takeTokens_eq_takeWhile (lines : List StreamLine) :
    takeTokens lines
      = (lines.takeWhile (fun l => decide (l.size < MaxScanTokenSize))).map StreamLine.chunk := by
  induction lines with
  | nil => rfl
  | cons l rest ih =>
    by_cases h : l.size < MaxScanTokenSize
    · simp [takeTokens, List.takeWhile, h, ih]
    · simp [takeTokens, List.takeWhile, h]

theorem scanTokens_whole (body : Body)
    (hshort : ∀ l ∈ body.lines, l.size < MaxScanTokenSize)
    (harrived : body.lines.length ≤ body.arrived) (htail : body.tail = none) :
    scanTokens body = body.lines.map StreamLine.chunk := by
  unfold scanTokens
  rw [htail, List.take_of_length_le harrived, List.append_nil]
  exact takeTokens_short _ hshort

theorem scanTokens_shortLines (chunks : List Chunk) : scanTokens (shortLines chunks) = chunks := by
  rw [scanTokens_whole]
  · simp [shortLines, Function.comp_def]
  · intro l hl
    simp only [shortLines, List.mem_map] at hl
    obtain ⟨c, _, rfl⟩ := hl
    show (64 : Nat) < MaxScanTokenSize
    decide
  · simp [shortLines]
  · rfl

theorem benchmarkModel_done (flags : Flags) (env : Env) (ip model : String) (body : Body)
    (init : List Chunk)
    (hb : flags.disableBench = false)
    (hresp : env.postGenerate ip model = GenerateResponse.answered 200 body)
    (htok : scanTokens body = init ++ [Chunk.object (DoneField.boolean true)])
    (hinit : ∀ c ∈ init, c ≠ Chunk.object (DoneField.boolean true)) :
    benchmarkModel flags env ip model =
      (env.clock ip model 1 - env.clock ip model 0,
       Float64.divide (Float64.ofInt ((init.length + 1 : ℕ) : ℤ))
         (Float64.seconds (env.clock ip model (init.length + 2) - env.clock ip model 0)),
       "完成") := by
  have hcount : init.length + 1 ≠ 0 := by omega
  unfold benchmarkModel
  simp only [hb, hresp, htok, scanLines_first _ init hinit, Bool.false_eq_true,
    if_false, ne_eq, not_true_eq_false, hcount]

/-- C5, as amended: for a stream that delivers k >= 1 chunks of which exactly the
last is marked done, read under a non-decreasing clock with a positive elapsed
time Δ (start to the reading taken at the last chunk; k and Δ in the range of
int64), `benchmarkModel` reports status "完成" and a finite tokens-per-second
value: the float64 quotient of float64(k) by Δ.Seconds(), which is within the
relative error 2^-50 of k divided by the elapsed seconds. The first-token
latency is at most Δ, and strictly less exactly when the reading taken for the
first token is before the reading taken at the last chunk. -/
theorem benchmark_throughput_latency (flags : Flags) (env : Env) (ip model : String)
    (body : Body) (init : List Chunk)
    (hb : flags.disableBench = false)
    (hresp : env.postGenerate ip model = GenerateResponse.answered 200 body)
    (htok : scanTokens body = init ++ [Chunk.object (DoneField.boolean true)])
    (hinit : ∀ c ∈ init, c ≠ Chunk.object (DoneField.boolean true))
    (hmono : ∀ i, env.clock ip model i ≤ env.clock ip model (i + 1))
    (hpos : env.clock ip model 0 < env.clock ip model (init.length + 2))
    (hrange : env.clock ip model (init.length + 2) - env.clock ip model 0 < 2 ^ 63)
    (hcount : init.length + 1 < 2 ^ 63) :
    ∃ tps : ℚ,
      benchmarkModel flags env ip model =
        (env.clock ip model 1 - env.clock ip model 0, Float64.finite tps, "完成") ∧
      Float64.finite tps =
        Float64.divide (Float64.ofInt ((init.length + 1 : ℕ) : ℤ))
          (Float64.seconds (env.clock ip model (init.length + 2) - env.clock ip model 0)) ∧
      |tps - ((init.length + 1 : ℕ) : ℚ) /
          (((env.clock ip model (init.length + 2) - env.clock ip model 0 : ℤ) : ℚ) / 1000000000)|
        ≤ ((init.length + 1 : ℕ) : ℚ) /
          (((env.clock ip model (init.length + 2) - env.clock ip model 0 : ℤ) : ℚ) / 1000000000)
          / 2 ^ 50 ∧
      env.clock ip model 1 - env.clock ip model 0
        ≤ env.clock ip model (init.length + 2) - env.clock ip model 0 ∧
      (env.clock ip model 1 - env.clock ip model 0
          < env.clock ip model (init.length + 2) - env.clock ip model 0 ↔
        env.clock ip model 1 < env.clock ip model (init.length + 2)) := by
  have hle : env.clock ip model 1 ≤ env.clock ip model (init.length + 2) :=
    clock_mono _ hmono 1 (init.length + 2) (by omega)
  obtain ⟨tps, h1, h2⟩ := throughput_within (init.length + 1)
    (env.clock ip model (init.length + 2) - env.clock ip model 0) (by omega) hcount
    (by omega) hrange
  refine ⟨tps, ?_, h1.symm, h2, by omega, by omega⟩
  rw [benchmarkModel_done flags env ip model body init hb hresp htok hinit, h1]

/-- C5 as amended, at the sample stream of two chunks and a clock that advances
by one millisecond from call to call. -/
theorem benchmark_throughput_latency_witness :
    ∃ tps : ℚ,
      benchmarkModel benchFlags sampleEnv "10.0.0.2" "deepseek-r1:7b" =
        (sampleEnv.clock "10.0.0.2" "deepseek-r1:7b" 1
          - sampleEnv.clock "10.0.0.2" "deepseek-r1:7b" 0, Float64.finite tps, "完成") ∧
      Float64.finite tps =
        Float64.divide
          (Float64.ofInt (((([Chunk.object DoneField.absent] : List Chunk).length + 1 : ℕ)) : ℤ))
          (Float64.seconds (sampleEnv.clock "10.0.0.2" "deepseek-r1:7b"
              (([Chunk.object DoneField.absent] : List Chunk).length + 2)
            - sampleEnv.clock "10.0.0.2" "deepseek-r1:7b" 0)) ∧
      |tps - ((([Chunk.object DoneField.absent] : List Chunk).length + 1 : ℕ) : ℚ) /
          (((sampleEnv.clock "10.0.0.2" "deepseek-r1:7b"
                (([Chunk.object DoneField.absent] : List Chunk).length + 2)
              - sampleEnv.clock "10.0.0.2" "deepseek-r1:7b" 0 : ℤ) : ℚ) / 1000000000)|
        ≤ ((([Chunk.object DoneField.absent] : List Chunk).length + 1 : ℕ) : ℚ) /
          (((sampleEnv.clock "10.0.0.2" "deepseek-r1:7b"
                (([Chunk.object DoneField.absent] : List Chunk).length + 2)
              - sampleEnv.clock "10.0.0.2" "deepseek-r1:7b" 0 : ℤ) : ℚ) / 1000000000)
          / 2 ^ 50 ∧
      sampleEnv.clock "10.0.0.2" "deepseek-r1:7b" 1
          - sampleEnv.clock "10.0.0.2" "deepseek-r1:7b" 0
        ≤ sampleEnv.clock "10.0.0.2" "deepseek-r1:7b"
            (([Chunk.object DoneField.absent] : List Chunk).length + 2)
          - sampleEnv.clock "10.0.0.2" "deepseek-r1:7b" 0 ∧
      (sampleEnv.clock "10.0.0.2" "deepseek-r1:7b" 1
            - sampleEnv.clock "10.0.0.2" "deepseek-r1:7b" 0
          < sampleEnv.clock "10.0.0.2" "deepseek-r1:7b"
              (([Chunk.object DoneField.absent] : List Chunk).length + 2)
            - sampleEnv.clock "10.0.0.2" "deepseek-r1:7b" 0 ↔
        sampleEnv.clock "10.0.0.2" "deepseek-r1:7b" 1
          < sampleEnv.clock "10.0.0.2" "deepseek-r1:7b"
              (([Chunk.object DoneField.absent] : List Chunk).length + 2)) :=
  benchmark_throughput_latency benchFlags sampleEnv "10.0.0.2" "deepseek-r1:7b"
    (shortLines [Chunk.object DoneField.absent, Chunk.object (DoneField.boolean true)])
    [Chunk.object DoneField.absent] rfl rfl (by decide) (by decide)
    (fun i => by simp [sampleEnv]) (by decide) (by decide) (by decide)

/-- C5 fails as stated, in both of its parts. On a stream of one chunk, marked
done, with both clock readings of that chunk at the same instant 5 ms after the
start, the first-token latency returned equals the elapsed time, so it is not
strictly less. On the same stream with both readings 25518293 ns after the
start, the tokens-per-second value returned is the float64
2757580382734221 / 2^46 (39.18757418452715...), which is not the quotient
1 / 0.025518293 = 1000000000 / 25518293. -/
theorem benchmark_latency_not_strict :
    scanTokens (shortLines [Chunk.object (DoneField.boolean true)])
      = [Chunk.object (DoneField.boolean true)] ∧
    coarseClockEnv.postGenerate "10.0.0.2" "deepseek-r1:7b"
      = GenerateResponse.answered 200 (shortLines [Chunk.object (DoneField.boolean true)]) ∧
    (benchmarkModel benchFlags coarseClockEnv "10.0.0.2" "deepseek-r1:7b").1 = 5000000 ∧
    (benchmarkModel benchFlags coarseClockEnv "10.0.0.2" "deepseek-r1:7b").2.2 = "完成" ∧
    coarseClockEnv.clock "10.0.0.2" "deepseek-r1:7b" 2
      - coarseClockEnv.clock "10.0.0.2" "deepseek-r1:7b" 0 = 5000000 ∧
    ¬ ((benchmarkModel benchFlags coarseClockEnv "10.0.0.2" "deepseek-r1:7b").1
        < coarseClockEnv.clock "10.0.0.2" "deepseek-r1:7b" 2
          - coarseClockEnv.clock "10.0.0.2" "deepseek-r1:7b" 0) ∧
    unevenClockEnv.postGenerate "10.0.0.2" "deepseek-r1:7b"
      = GenerateResponse.answered 200 (shortLines [Chunk.object (DoneField.boolean true)]) ∧
    unevenClockEnv.clock "10.0.0.2" "deepseek-r1:7b" 2
      - unevenClockEnv.clock "10.0.0.2" "deepseek-r1:7b" 0 = 25518293 ∧
    benchmarkModel benchFlags unevenClockEnv "10.0.0.2" "deepseek-r1:7b"
      = (25518293, Float64.finite (mkRat 2757580382734221 70368744177664), "完成") ∧
    (mkRat 2757580382734221 70368744177664 : ℚ) ≠ (1 : ℚ) / ((25518293 : ℚ) / 1000000000) := by
  refine ⟨by decide, by decide, by decide, by decide, by decide, by decide, by decide,
    by decide, by decide, ?_⟩
  rw [Rat.mkRat_eq_div]
  norm_num

theorem scanLines_count_ge (clock : Nat → Int) (lines : List Chunk) (v : BenchVars) :
    v.tokenCount ≤ (scanLines clock lines v).tokenCount := by
  induction lines generalizing v with
  | nil => exact le_refl _
  | cons line rest ih =>
    cases line with
    | malformed =>
      simp only [scanLines]
      refine le_trans ?_ (ih _)
      split <;> simp
    | object done =>
      simp only [scanLines]
      split
      · split <;> simp
      · refine le_trans ?_ (ih _)
        split <;> simp

theorem scanLines_count_pos (clock : Nat → Int) (line : Chunk) (rest : List Chunk)
    (v : BenchVars) : (scanLines clock (line :: rest) v).tokenCount ≠ 0 := by
  cases line with
  | malformed =>
    simp only [scanLines]
    refine Nat.pos_iff_ne_zero.mp (lt_of_lt_of_le ?_ (scanLines_count_ge clock rest _))
    exact Nat.succ_pos _
  | object done =>
    simp only [scanLines]
    split
    · simp
    · refine Nat.pos_iff_ne_zero.mp (lt_of_lt_of_le ?_ (scanLines_count_ge clock rest _))
      exact Nat.succ_pos _

theorem http_status_ne_done (code : String) : "HTTP错误: " ++ code ≠ "完成" := by
  intro h
  have h2 := congrArg String.data h
  simp at h2

/-- C6: with benchmarking enabled `benchmarkModel` classifies every outcome of
the request: a connection failure gives "连接失败" with zero latency and zero
throughput; a response whose code is not 200 gives "HTTP错误: " followed by the
code, with zero latency and throughput; a 200 response from which no chunk is
read gives "无响应" with zero latency and throughput; a 200 response from which
at least one chunk is read gives "完成"; and "完成" is returned exactly for a
200 response with at least one chunk read. -/
theorem benchmark_status_classification (flags : Flags) (env : Env) (ip model : String)
    (hb : flags.disableBench = false) :
    (env.postGenerate ip model = GenerateResponse.failed →
      benchmarkModel flags env ip model = (0, Float64.zero, "连接失败")) ∧
    (∀ code body, env.postGenerate ip model = GenerateResponse.answered code body →
      code ≠ 200 →
      benchmarkModel flags env ip model = (0, Float64.zero, "HTTP错误: " ++ toString code)) ∧
    (∀ body, env.postGenerate ip model = GenerateResponse.answered 200 body →
      scanTokens body = [] →
      benchmarkModel flags env ip model = (0, Float64.zero, "无响应")) ∧
    (∀ body line rest, env.postGenerate ip model = GenerateResponse.answered 200 body →
      scanTokens body = line :: rest →
      (benchmarkModel flags env ip model).2.2 = "完成") ∧
    ((benchmarkModel flags env ip model).2.2 = "完成" ↔
      ∃ body line rest, env.postGenerate ip model = GenerateResponse.answered 200 body ∧
        scanTokens body = line :: rest) := by
  have hfail : env.postGenerate ip model = GenerateResponse.failed →
      benchmarkModel flags env ip model = (0, Float64.zero, "连接失败") := by
    intro h
    simp [benchmarkModel, hb, h]
  have hcode : ∀ code body, env.postGenerate ip model = GenerateResponse.answered code body →
      code ≠ 200 →
      benchmarkModel flags env ip model
        = (0, Float64.zero, "HTTP错误: " ++ toString code) := by
    intro code body h hc
    simp [benchmarkModel, hb, h, hc]
  have hnone : ∀ body, env.postGenerate ip model = GenerateResponse.answered 200 body →
      scanTokens body = [] →
      benchmarkModel flags env ip model = (0, Float64.zero, "无响应") := by
    intro body h ht
    simp [benchmarkModel, hb, h, ht, scanLines]
  have hsome : ∀ body line rest,
      env.postGenerate ip model = GenerateResponse.answered 200 body →
      scanTokens body = line :: rest →
      (benchmarkModel flags env ip model).2.2 = "完成" := by
    intro body line rest h ht
    simp [benchmarkModel, hb, h, ht, scanLines_count_pos]
  refine ⟨hfail, hcode, hnone, hsome, fun hdone => ?_,
    fun ⟨body, line, rest, h, ht⟩ => hsome body line rest h ht⟩
  cases hresp : env.postGenerate ip model with
  | failed =>
    rw [hfail hresp] at hdone
    exact absurd hdone (by decide)
  | answered code body =>
    by_cases hc : code = 200
    · subst hc
      cases ht : scanTokens body with
      | nil =>
        rw [hnone body hresp ht] at hdone
        exact absurd hdone (by decide)
      | cons line rest => exact ⟨body, line, rest, rfl, ht⟩
    · rw [hcode code body hresp hc] at hdone
      exact absurd hdone (http_status_ne_done _)

/-- C6 at the sample stream: a 200 response with two chunks is classified "完成". -/
theorem benchmark_status_classification_witness :
    (benchmarkModel benchFlags sampleEnv "10.0.0.2" "deepseek-r1:7b").2.2 = "完成" :=
  (benchmark_status_classification benchFlags sampleEnv "10.0.0.2" "deepseek-r1:7b" rfl).2.2.2.1
    (shortLines [Chunk.object DoneField.absent, Chunk.object (DoneField.boolean true)])
    (Chunk.object DoneField.absent) [Chunk.object (DoneField.boolean true)] rfl (by decide)

/-! ### the worker step on the scan state -/

theorem workerBody_processed (flags : Flags) (env : Env) (ip : String) (w : World)
    (h : mapGet w.state.ScannedIPs ip = true) :
    workerBody flags env ip w =
      { w with progress := w.progress.Increment, trace := w.trace ++ [Event.incremented] } := by
  simp [workerBody, h]

theorem workerLoop_all_processed (flags : Flags) (env : Env) (sched : Schedule)
    (ips : List String) (n : Nat) (l : Loop)
    (h : ∀ a ∈ ips, mapGet l.world.state.ScannedIPs a = true) :
    (workerLoop flags env sched n ips l).world.state.ScannedIPs = l.world.state.ScannedIPs ∧
    sentResults (workerLoop flags env sched n ips l).world.trace = sentResults l.world.trace ∧
    (workerLoop flags env sched n ips l).world.trace.filter Event.isProbe
      = l.world.trace.filter Event.isProbe := by
  induction ips generalizing n l with
  | nil => simp [workerLoop]
  | cons ip rest ih =>
    have hip : mapGet l.world.state.ScannedIPs ip = true := h ip (List.mem_cons_self _ _)
    have hrest : ∀ a ∈ rest, mapGet l.world.state.ScannedIPs a = true :=
      fun a ha => h a (List.mem_cons_of_mem _ ha)
    unfold workerLoop
    by_cases hc : sched.cancelAfter = some n
    · simp [hc]
    · simp only [hc, if_false, workerBody_processed flags env ip l.world hip]
      by_cases ht : sched.tick n = true
      · simp only [ht, if_true]
        obtain ⟨h1, h2, h3⟩ := ih (n + 1)
          { world := { state := { l.world.state with LastScanTime := env.now },
                       progress := l.world.progress.Increment,
                       trace := l.world.trace ++ [Event.incremented] },
            saved := l.saved ++ [{ l.world.state with LastScanTime := env.now }],
            cancelled := l.cancelled } hrest
        refine ⟨h1, ?_, ?_⟩
        · rw [h2]; simp [sentResults_append, sentResults]
        · rw [h3]; simp [Event.isProbe]
      · simp only [ht, Bool.false_eq_true, if_false]
        obtain ⟨h1, h2, h3⟩ := ih (n + 1)
          { l with world := { l.world with progress := l.world.progress.Increment,
                                           trace := l.world.trace ++ [Event.incremented] } } hrest
        refine ⟨h1, ?_, ?_⟩
        · rw [h2]; simp [sentResults_append, sentResults]
        · rw [h3]; simp [Event.isProbe]

/-- C8: a worker step at an address already marked processed makes no probe,
sends no result and leaves the scan state as it is; it only increments the
progress counter. Hence a resumed run over a candidate list whose valid
addresses are all marked processed in the loaded state makes no probe, sends no
result, writes no output row and ends with the processed set it loaded, under
every schedule. -/
theorem resume_skips_processed (flags : Flags) (env : Env) (sched : Schedule) :
    (∀ (ip : String) (w : World), mapGet w.state.ScannedIPs ip = true →
      workerBody flags env ip w =
        { state := w.state, progress := w.progress.Increment,
          trace := w.trace ++ [Event.incremented] }) ∧
    (∀ (state : ScanState) (lines : List String),
      flags.resumeScan = true →
      env.stateFile = StateFile.content (some state) →
      validateStateConfig flags state = true →
      env.openOutput = some lines →
      (∀ a ∈ validAddresses env lines, mapGet state.ScannedIPs a = true) →
      (processResults flags env sched).err = none ∧
      (processResults flags env sched).trace.filter Event.isProbe = [] ∧
      sentResults (processResults flags env sched).trace = [] ∧
      (processResults flags env sched).rows = [] ∧
      (processResults flags env sched).state.map (fun st => st.ScannedIPs)
        = some state.ScannedIPs) := by
  refine ⟨fun ip w h => workerBody_processed flags env ip w h, ?_⟩
  intro state lines hres hfile hvalid hopen hall
  have hrun : processResults flags env sched = runScan flags env sched lines state := by
    simp [processResults, hopen, hres, hfile, loadState, hvalid]
  have hkeep : (countAddresses env lines state).ScannedIPs = state.ScannedIPs := by
    unfold countAddresses
    split <;> rfl
  obtain ⟨h1, h2, h3⟩ := workerLoop_all_processed flags env sched (validAddresses env lines) 0
    { world := { state := countAddresses env lines state,
                 progress := initProgress env (countAddresses env lines state),
                 trace := [] },
      saved := [], cancelled := false } (by rw [hkeep]; exact hall)
  rw [hrun]
  refine ⟨rfl, ?_, ?_, ?_, ?_⟩
  · simpa [runScan, finishRun] using h3
  · simpa [runScan, finishRun, sentResults] using h2
  · simp only [runScan, finishRun, h2]
    rfl
  · simp only [runScan, finishRun]
    split <;> simp [h1, hkeep]

/-- C8 at the sample list with all three addresses marked processed in the
loaded state. -/
theorem resume_skips_processed_witness :
    (processResults resumeFlags resumedEnv calmSchedule).err = none ∧
    (processResults resumeFlags resumedEnv calmSchedule).trace.filter Event.isProbe = [] ∧
    sentResults (processResults resumeFlags resumedEnv calmSchedule).trace = [] ∧
    (processResults resumeFlags resumedEnv calmSchedule).rows = [] ∧
    (processResults resumeFlags resumedEnv calmSchedule).state.map (fun st => st.ScannedIPs)
      = some [("10.0.0.1", true), ("10.0.0.2", true), ("10.0.0.3", true)] :=
  (resume_skips_processed resumeFlags resumedEnv calmSchedule).2
    { ScannedIPs := [("10.0.0.1", true), ("10.0.0.2", true), ("10.0.0.3", true)],
      LastScanTime := 0, TotalIPs := 3, Config := currentConfig sampleFlags }
    ["10.0.0.1", " 10.0.0.2 ", "not an address", "10.0.0.3"]
    rfl rfl (by decide) rfl (by decide)

/-! ### the processed set over a whole run -/

/-- C10: when resume is requested and the loaded state does not pass
`validateStateConfig`, `processResults` returns an error (the configuration
error, when the candidate list could be opened) without reading a line of the
candidate list: no worker action happens, so no probe is made and no result is
sent, no output row is written and the state file is not written. -/
theorem mismatch_aborts_before_scan (flags : Flags) (env : Env) (sched : Schedule)
    (state : ScanState)
    (hres : flags.resumeScan = true)
    (hfile : env.stateFile = StateFile.content (some state))
    (hbad : validateStateConfig flags state = false) :
    (processResults flags env sched).err ≠ none ∧
    (env.openOutput ≠ none →
      (processResults flags env sched).err = some "扫描配置已更改,无法继续之前的扫描") ∧
    (processResults flags env sched).linesRead = 0 ∧
    (processResults flags env sched).trace = [] ∧
    sentResults (processResults flags env sched).trace = [] ∧
    (processResults flags env sched).rows = [] ∧
    (processResults flags env sched).saved = [] ∧
    (processResults flags env sched).state = none := by
  cases hopen : env.openOutput with
  | none => simp [processResults, hopen, RunOutcome.failure, sentResults]
  | some lines =>
    simp [processResults, hopen, hres, hfile, loadState, hbad, RunOutcome.failure, sentResults]

/-- C10 at the sample list with a state file written under another output path. -/
theorem mismatch_aborts_before_scan_witness :
    (processResults resumeFlags staleEnv calmSchedule).err ≠ none ∧
    (staleEnv.openOutput ≠ none →
      (processResults resumeFlags staleEnv calmSchedule).err
        = some "扫描配置已更改,无法继续之前的扫描") ∧
    (processResults resumeFlags staleEnv calmSchedule).linesRead = 0 ∧
    (processResults resumeFlags staleEnv calmSchedule).trace = [] ∧
    sentResults (processResults resumeFlags staleEnv calmSchedule).trace = [] ∧
    (processResults resumeFlags staleEnv calmSchedule).rows = [] ∧
    (processResults resumeFlags staleEnv calmSchedule).saved = [] ∧
    (processResults resumeFlags staleEnv calmSchedule).state = none :=
  mismatch_aborts_before_scan resumeFlags staleEnv calmSchedule staleState rfl rfl (by decide)

/-! ### the worker, action by action -/

theorem mapGet_mapSet (m : List (String × Bool)) (key : String) (val : Bool) (a : String) :
    mapGet (mapSet m key val) a = if a = key then val else mapGet m a := by
  induction m with
  | nil =>
    by_cases h : a = key
    · simp [mapSet, mapGet, h]
    · have h2 : ¬ key = a := fun e => h e.symm
      simp [mapSet, mapGet, h, h2]
  | cons kv rest ih =>
    obtain ⟨k, v⟩ := kv
    by_cases hk : k = key
    · subst hk
      by_cases h : a = k
      · simp [mapSet, mapGet, h]
      · have h2 : ¬ k = a := fun e => h e.symm
        simp [mapSet, mapGet, h, h2]
    · by_cases h : k = a
      · subst h
        simp [mapSet, mapGet, hk]
      · simp [mapSet, mapGet, hk, h, ih]

theorem mapGet_mapSet_of_true (m : List (String × Bool)) (key a : String)
    (h : mapGet m a = true) : mapGet (mapSet m key true) a = true := by
  rw [mapGet_mapSet]
  split
  · rfl
  · exact h

theorem mem_sentResults (trace : List Event) (r : ScanResult) :
    r ∈ sentResults trace ↔ Event.sent r ∈ trace := by
  induction trace with
  | nil => simp [sentResults]
  | cons e rest ih => cases e <;> simp [sentResults, ih]

theorem sent_mem_probeAddress (flags : Flags) (env : Env) (ip : String) (r : ScanResult)
    (h : Event.sent r ∈ probeAddress flags env ip) : r.IP = ip := by
  rw [← mem_sentResults, sentResults_probeAddress] at h
  split at h
  · rw [List.mem_singleton.mp h]
  · simp at h

theorem getElem?_set_phase (phases : List Phase) (i j : Nat) (x q : Phase)
    (h : (phases.set i x)[j]? = some q) :
    (j = i ∧ q = x) ∨ (j ≠ i ∧ phases[j]? = some q) := by
  rw [List.getElem?_set] at h
  by_cases hij : i = j
  · rw [if_pos hij] at h
    split at h
    · exact Or.inl ⟨hij.symm, (Option.some.inj h).symm⟩
    · exact absurd h (by simp)
  · rw [if_neg hij] at h
    exact Or.inr ⟨fun e => hij e.symm, h⟩

theorem getElem?_set_other (phases : List Phase) (i j : Nat) (x q : Phase)
    (h : phases[j]? = some q) (hij : j ≠ i) : (phases.set i x)[j]? = some q := by
  rw [List.getElem?_set, if_neg (fun e => hij e.symm)]
  exact h

theorem getElem?_set_same (phases : List Phase) (i : Nat) (x q : Phase)
    (h : phases[i]? = some q) : (phases.set i x)[i]? = some x := by
  obtain ⟨hlt, _⟩ := List.getElem?_eq_some_iff.mp h
  rw [List.getElem?_set, if_pos rfl, if_pos hlt]

/-- What holds of every state of a run of the pool: a result was sent only for
an address that is processed or that a worker is working on; a processed
address was processed at the start or its pipeline has completed; and the
actions still to come in a probe block are the rest of that block. -/
theorem pool_invariant (flags : Flags) (env : Env) (w0 : World) (workers : Nat)
    (h0 : w0.trace = []) (p : Pool) (hp : PoolReachable flags env w0 workers p) :
    (∀ r ∈ sentResults p.world.trace,
      mapGet p.world.state.ScannedIPs r.IP = true ∨
        ∃ (i : Nat) (todo : List Event), p.phases[i]? = some (Phase.working r.IP todo)) ∧
    (∀ a, mapGet p.world.state.ScannedIPs a = true →
      mapGet w0.state.ScannedIPs a = true ∨ Completed flags env p.world.trace a) ∧
    (∀ (i : Nat) (ip : String) (todo : List Event),
      p.phases[i]? = some (Phase.working ip todo) →
      (∀ r, Event.sent r ∈ todo → r.IP = ip) ∧
      ∃ pre, pre ++ todo = probeAddress flags env ip ∧ pre.Sublist p.world.trace) := by
  induction hp with
  | init =>
    refine ⟨fun r hr => ?_, fun a ha => Or.inl ha, fun i ip todo hph => ?_⟩
    · simp [h0, sentResults] at hr
    · obtain ⟨_, hget⟩ := List.getElem?_eq_some_iff.mp hph
      rw [List.getElem_replicate] at hget
      exact absurd hget (by simp)
  | next p p2 _ hs ih =>
    obtain ⟨i1, i2, i3⟩ := ih
    cases hs with
    | worker i ph w2 ph2 hi hstep =>
      -- the facts about the other workers carry over when the trace grows
      have others : ∀ (suffix : List Event) (j : Nat) (ip : String) (todo : List Event), j ≠ i →
          p.phases[j]? = some (Phase.working ip todo) →
          (∀ r, Event.sent r ∈ todo → r.IP = ip) ∧
          ∃ pre, pre ++ todo = probeAddress flags env ip ∧
            pre.Sublist (p.world.trace ++ suffix) := by
        intro suffix j ip todo _ hj
        obtain ⟨k1, pre, k2, k3⟩ := i3 j ip todo hj
        exact ⟨k1, pre, k2, k3.trans (List.sublist_append_left _ _)⟩
      have grown : ∀ (suffix : List Event) (a : String),
          Completed flags env p.world.trace a →
          Completed flags env (p.world.trace ++ suffix) a :=
        fun suffix a h => h.trans (List.sublist_append_left _ _)
      generalize hw : p.world = w at hstep i1 i2 i3 others grown
      generalize hm1 : ({ world := w, phase := ph } : Machine) = m1 at hstep
      generalize hm2 : ({ world := w2, phase := ph2 } : Machine) = m2 at hstep
      cases hstep with
      | skip w' ip h =>
        simp only [Machine.mk.injEq] at hm1 hm2
        obtain ⟨rfl, rfl⟩ := hm1
        obtain ⟨rfl, rfl⟩ := hm2
        refine ⟨fun r hr => ?_, i2, fun j ip2 todo hj => ?_⟩
        · rcases i1 r hr with h1 | ⟨j, todo, h1⟩
          · exact Or.inl h1
          · have hne : j ≠ i := by
              intro e
              rw [e, hi] at h1
              simp at h1
            exact Or.inr ⟨j, todo, getElem?_set_other _ _ _ _ _ h1 hne⟩
        · rcases getElem?_set_phase _ _ _ _ _ hj with ⟨_, h2⟩ | ⟨hne, h2⟩
          · simp at h2
          · simpa using others [] j ip2 todo hne h2
      | start w' ip h =>
        simp only [Machine.mk.injEq] at hm1 hm2
        obtain ⟨rfl, rfl⟩ := hm1
        obtain ⟨rfl, rfl⟩ := hm2
        refine ⟨fun r hr => ?_, i2, fun j ip2 todo hj => ?_⟩
        · rcases i1 r hr with h1 | ⟨j, todo, h1⟩
          · exact Or.inl h1
          · have hne : j ≠ i := by
              intro e
              rw [e, hi] at h1
              simp at h1
            exact Or.inr ⟨j, todo, getElem?_set_other _ _ _ _ _ h1 hne⟩
        · rcases getElem?_set_phase _ _ _ _ _ hj with ⟨_, h2⟩ | ⟨hne, h2⟩
          · simp only [Phase.working.injEq] at h2
            obtain ⟨rfl, rfl⟩ := h2
            exact ⟨fun r hr => sent_mem_probeAddress flags env _ r hr, [], rfl,
              List.nil_sublist _⟩
          · simpa using others [] j ip2 todo hne h2
      | act w' ip e rest =>
        simp only [Machine.mk.injEq] at hm1 hm2
        obtain ⟨rfl, rfl⟩ := hm1
        obtain ⟨rfl, rfl⟩ := hm2
        obtain ⟨j1, pre, j2, j3⟩ := i3 i ip (e :: rest) hi
        refine ⟨fun r hr => ?_, fun a ha => ?_, fun j ip2 todo hj => ?_⟩
        · simp only [sentResults_append, List.mem_append] at hr
          rcases hr with hr | hr
          · rcases i1 r hr with h1 | ⟨j, todo, h1⟩
            · exact Or.inl h1
            · by_cases hji : j = i
              · rw [hji, hi] at h1
                simp only [Option.some.injEq, Phase.working.injEq] at h1
                exact Or.inr ⟨i, rest, by rw [← h1.1]; exact getElem?_set_same _ _ _ _ hi⟩
              · exact Or.inr ⟨j, todo, getElem?_set_other _ _ _ _ _ h1 hji⟩
          · have hsent : Event.sent r ∈ [e] := (mem_sentResults _ _).mp hr
            rw [List.mem_singleton] at hsent
            have hip : r.IP = ip := j1 r (by rw [hsent]; exact List.mem_cons_self _ _)
            exact Or.inr ⟨i, rest, by rw [hip]; exact getElem?_set_same _ _ _ _ hi⟩
        · rcases i2 a ha with h1 | h1
          · exact Or.inl h1
          · exact Or.inr (grown [e] a h1)
        · rcases getElem?_set_phase _ _ _ _ _ hj with ⟨_, h2⟩ | ⟨hne, h2⟩
          · simp only [Phase.working.injEq] at h2
            obtain ⟨rfl, rfl⟩ := h2
            refine ⟨fun r hr => j1 r (List.mem_cons_of_mem _ hr), pre ++ [e],
              by simpa using j2, ?_⟩
            exact List.Sublist.append j3 (List.Sublist.refl _)
          · exact others [e] j ip2 todo hne h2
      | mark w' ip =>
        simp only [Machine.mk.injEq] at hm1 hm2
        obtain ⟨rfl, rfl⟩ := hm1
        obtain ⟨rfl, rfl⟩ := hm2
        obtain ⟨_, pre, j2, j3⟩ := i3 i ip [] hi
        rw [List.append_nil] at j2
        subst j2
        refine ⟨fun r hr => ?_, fun a ha => ?_, fun j ip2 todo hj => ?_⟩
        · simp only [sentResults_append, List.mem_append, sentResults, List.not_mem_nil,
            or_false] at hr
          rcases i1 r hr with h1 | ⟨j, todo, h1⟩
          · exact Or.inl (mapGet_mapSet_of_true _ _ _ h1)
          · by_cases hji : j = i
            · rw [hji, hi] at h1
              simp only [Option.some.injEq, Phase.working.injEq] at h1
              refine Or.inl ?_
              show mapGet (mapSet w.state.ScannedIPs ip true) r.IP = true
              rw [← h1.1, mapGet_mapSet_self]
            · exact Or.inr ⟨j, todo, getElem?_set_other _ _ _ _ _ h1 hji⟩
        · have ha2 : mapGet (mapSet w.state.ScannedIPs ip true) a = true := ha
          rw [mapGet_mapSet] at ha2
          by_cases hk : a = ip
          · subst hk
            exact Or.inr (List.Sublist.append j3 (List.Sublist.refl _))
          · rw [if_neg hk] at ha2
            rcases i2 a ha2 with h1 | h1
            · exact Or.inl h1
            · exact Or.inr (grown [Event.marked ip] a h1)
        · rcases getElem?_set_phase _ _ _ _ _ hj with ⟨_, h2⟩ | ⟨hne, h2⟩
          · simp at h2
          · exact others [Event.marked ip] j ip2 todo hne h2
      | count w' =>
        simp only [Machine.mk.injEq] at hm1 hm2
        obtain ⟨rfl, rfl⟩ := hm1
        obtain ⟨rfl, rfl⟩ := hm2
        refine ⟨fun r hr => ?_, fun a ha => ?_, fun j ip2 todo hj => ?_⟩
        · simp only [sentResults_append, List.mem_append, sentResults, List.not_mem_nil,
            or_false] at hr
          rcases i1 r hr with h1 | ⟨j, todo, h1⟩
          · exact Or.inl h1
          · have hne : j ≠ i := by
              intro e
              rw [e, hi] at h1
              simp at h1
            exact Or.inr ⟨j, todo, getElem?_set_other _ _ _ _ _ h1 hne⟩
        · rcases i2 a ha with h1 | h1
          · exact Or.inl h1
          · exact Or.inr (grown [Event.incremented] a h1)
        · rcases getElem?_set_phase _ _ _ _ _ hj with ⟨_, h2⟩ | ⟨hne, h2⟩
          · simp at h2
          · exact others [Event.incremented] j ip2 todo hne h2
      | tick w' q =>
        simp only [Machine.mk.injEq] at hm1 hm2
        obtain ⟨rfl, rfl⟩ := hm1
        obtain ⟨rfl, rfl⟩ := hm2
        refine ⟨fun r hr => ?_, i2, fun j ip2 todo hj => ?_⟩
        · rcases i1 r hr with h1 | ⟨j, todo, h1⟩
          · exact Or.inl h1
          · by_cases hji : j = i
            · rw [hji, hi] at h1
              exact Or.inr ⟨i, todo, by
                rw [Option.some.inj h1]
                exact getElem?_set_same _ _ _ _ hi⟩
            · exact Or.inr ⟨j, todo, getElem?_set_other _ _ _ _ _ h1 hji⟩
        · rcases getElem?_set_phase _ _ _ _ _ hj with ⟨rfl, h2⟩ | ⟨hne, h2⟩
          · exact i3 j ip2 todo (by rw [hi, h2])
          · exact i3 j ip2 todo h2

theorem set_phase_self (phases : List Phase) (i : Nat) (q : Phase) (h : phases[i]? = some q) :
    phases.set i q = phases := by
  induction phases generalizing i with
  | nil => rfl
  | cons x rest ih =>
    cases i with
    | zero =>
      simp only [List.getElem?_cons_zero, Option.some.injEq] at h
      simp [h]
    | succ n =>
      simp only [List.getElem?_cons_succ] at h
      simp [ih n h]

theorem pool_step_at (flags : Flags) (env : Env) (w0 : World) (workers : Nat) (i : Nat)
    (phases : List Phase) (hi : i < phases.length) (w w2 : World) (ph ph2 : Phase)
    (h : PoolReachable flags env w0 workers { world := w, phases := phases.set i ph })
    (hs : Step flags env { world := w, phase := ph } { world := w2, phase := ph2 }) :
    PoolReachable flags env w0 workers { world := w2, phases := phases.set i ph2 } := by
  have hget : (phases.set i ph)[i]? = some ph := by
    rw [List.getElem?_set, if_pos rfl, if_pos hi]
  have h2 := PoolReachable.next _ _ h
    (PoolStep.worker { world := w, phases := phases.set i ph } i ph w2 ph2 hget hs)
  simpa [List.set_set] using h2

theorem pool_acts (flags : Flags) (env : Env) (w0 : World) (workers : Nat) (i : Nat)
    (ip : String) (pre post : List Event) (phases : List Phase) (hi : i < phases.length)
    (w : World)
    (h : PoolReachable flags env w0 workers
      { world := w, phases := phases.set i (Phase.working ip (pre ++ post)) }) :
    PoolReachable flags env w0 workers
      { world := { w with trace := w.trace ++ pre },
        phases := phases.set i (Phase.working ip post) } := by
  induction pre generalizing w with
  | nil => simpa using h
  | cons e rest ih =>
    have h2 := ih { w with trace := w.trace ++ [e] }
      (pool_step_at flags env w0 workers i phases hi w _ _ _ h (Step.act w ip e (rest ++ post)))
    simpa using h2

theorem first_worker_idle : (List.replicate maxWorkers Phase.idle)[0]? = some Phase.idle := by
  rw [List.getElem?_replicate, if_pos (by decide)]

/-- The pool, run from the dequeue of an address by an idle worker to the next
wait of that worker with the other workers standing still, arrives at the world
`workerBody` computes. -/
theorem pool_workerBody (flags : Flags) (env : Env) (w0 : World) (workers : Nat) (i : Nat)
    (ip : String) (w : World) (phases : List Phase) (hi : phases[i]? = some Phase.idle)
    (h : PoolReachable flags env w0 workers { world := w, phases := phases }) :
    PoolReachable flags env w0 workers
      { world := workerBody flags env ip w, phases := phases } := by
  obtain ⟨hlt, _⟩ := List.getElem?_eq_some_iff.mp hi
  have hself := set_phase_self phases i Phase.idle hi
  have h' : PoolReachable flags env w0 workers
      { world := w, phases := phases.set i Phase.idle } := by rw [hself]; exact h
  by_cases hp : mapGet w.state.ScannedIPs ip = true
  · rw [workerBody_processed flags env ip w hp]
    have h1 := pool_step_at flags env w0 workers i phases hlt w _ _ _ h' (Step.skip w ip hp)
    have h2 := pool_step_at flags env w0 workers i phases hlt w _ _ _ h1 (Step.count w)
    rw [hself] at h2
    exact h2
  · have hp2 : mapGet w.state.ScannedIPs ip = false := by simpa using hp
    have h1 := pool_step_at flags env w0 workers i phases hlt w _ _ _ h' (Step.start w ip hp2)
    have h2 := pool_acts flags env w0 workers i ip (probeAddress flags env ip) [] phases hlt w
      (by simpa using h1)
    have h3 := pool_step_at flags env w0 workers i phases hlt _ _ _ _ h2 (Step.mark _ ip)
    have h4 := pool_step_at flags env w0 workers i phases hlt _ _ _ _ h3 (Step.count _)
    rw [hself] at h4
    simpa [workerBody, hp2] using h4

/-- The worker loop is one run of the pool: the one in which every dequeued
address is finished by a worker before the next address is dequeued. -/
theorem workerLoop_pool (flags : Flags) (env : Env) (sched : Schedule) (w0 : World)
    (workers : Nat) (hw : 0 < workers) (ips : List String) (n : Nat) (l : Loop)
    (h : PoolReachable flags env w0 workers
      { world := l.world, phases := List.replicate workers Phase.idle }) :
    PoolReachable flags env w0 workers
      { world := (workerLoop flags env sched n ips l).world,
        phases := List.replicate workers Phase.idle } := by
  have hidle : (List.replicate workers Phase.idle)[0]? = some Phase.idle := by
    rw [List.getElem?_replicate, if_pos hw]
  have hlen : 0 < (List.replicate workers Phase.idle).length := by
    rw [List.length_replicate]
    exact hw
  induction ips generalizing n l with
  | nil => simpa [workerLoop] using h
  | cons ip rest ih =>
    unfold workerLoop
    by_cases hc : sched.cancelAfter = some n
    · simpa [hc] using h
    · have hbody := pool_workerBody flags env w0 workers 0 ip l.world _ hidle h
      by_cases ht : sched.tick n = true
      · simp only [hc, if_false, ht, if_true]
        refine ih _ _ ?_
        have h2 : PoolReachable flags env w0 workers
            { world := workerBody flags env ip l.world,
              phases := (List.replicate workers Phase.idle).set 0 Phase.idle } := by
          rw [set_phase_self _ 0 Phase.idle hidle]
          exact hbody
        have h3 := pool_step_at flags env w0 workers 0 _ hlen _ _ _ _ h2
          (Step.tick (workerBody flags env ip l.world) Phase.idle)
        rw [set_phase_self _ 0 Phase.idle hidle] at h3
        exact h3
      · simp only [hc, if_false, ht]
        exact ih _ _ hbody

/-- The pool has runs the worker loop does not have: when the address 10.0.0.2
is dequeued by two workers before either of them marks it (it stands twice in
the candidate list), both probe it and both send its result, so that four
records are written where the worker loop writes two; the processed set is the
same. -/
theorem pool_probes_duplicate_twice :
    PoolReachable sampleFlags sampleEnv sampleWorld maxWorkers
      { world := twiceProbed, phases := List.replicate maxWorkers Phase.idle } ∧
    (sentResults twiceProbed.trace).map (fun r => (r.IP, r.Models.length))
      = [("10.0.0.2", 2), ("10.0.0.2", 2)] ∧
    (handleScanResults sampleFlags sampleEnv (sentResults twiceProbed.trace)).length = 4 ∧
    (handleScanResults sampleFlags sampleEnv
      (sentResults (workerLoop sampleFlags sampleEnv calmSchedule 0 ["10.0.0.2", "10.0.0.2"]
        { world := sampleWorld, saved := [], cancelled := false }).world.trace)).length = 2 ∧
    twiceProbed.state.ScannedIPs
      = (workerLoop sampleFlags sampleEnv calmSchedule 0 ["10.0.0.2", "10.0.0.2"]
          { world := sampleWorld, saved := [], cancelled := false }).world.state.ScannedIPs := by
  refine ⟨?_, by decide, by decide, by decide, by decide⟩
  have hlen0 : 0 < (List.replicate maxWorkers Phase.idle).length := by
    rw [List.length_replicate]
    decide
  have hself0 := set_phase_self _ 0 Phase.idle first_worker_idle
  have a0 : PoolReachable sampleFlags sampleEnv sampleWorld maxWorkers
      { world := sampleWorld,
        phases := (List.replicate maxWorkers Phase.idle).set 0 Phase.idle } := by
    rw [hself0]
    exact PoolReachable.init
  -- the first worker dequeues the address
  have a1 := pool_step_at sampleFlags sampleEnv sampleWorld maxWorkers 0 _ hlen0 sampleWorld _ _ _
    a0 (Step.start sampleWorld "10.0.0.2" (by decide))
  -- the second worker dequeues it as well
  have hidle1 : ((List.replicate maxWorkers Phase.idle).set 0
      (Phase.working "10.0.0.2" (probeAddress sampleFlags sampleEnv "10.0.0.2")))[1]?
        = some Phase.idle := by
    rw [List.getElem?_set, if_neg (by decide), List.getElem?_replicate, if_pos (by decide)]
  have hlen1 : 1 < ((List.replicate maxWorkers Phase.idle).set 0
      (Phase.working "10.0.0.2" (probeAddress sampleFlags sampleEnv "10.0.0.2"))).length := by
    rw [List.length_set, List.length_replicate]
    decide
  have hself1 := set_phase_self _ 1 Phase.idle hidle1
  rw [← hself1] at a1
  have a2 := pool_step_at sampleFlags sampleEnv sampleWorld maxWorkers 1 _ hlen1 sampleWorld _ _ _
    a1 (Step.start sampleWorld "10.0.0.2" (by decide))
  -- the second worker probes, sends, marks and counts
  have a3 := pool_acts sampleFlags sampleEnv sampleWorld maxWorkers 1 "10.0.0.2"
    (probeAddress sampleFlags sampleEnv "10.0.0.2") [] _ hlen1 sampleWorld (by simpa using a2)
  have a4 := pool_step_at sampleFlags sampleEnv sampleWorld maxWorkers 1 _ hlen1 _ _ _ _ a3
    (Step.mark _ "10.0.0.2")
  have a5 := pool_step_at sampleFlags sampleEnv sampleWorld maxWorkers 1 _ hlen1 _ _ _ _ a4
    (Step.count _)
  rw [hself1] at a5
  -- and so does the first worker
  have a6 := pool_acts sampleFlags sampleEnv sampleWorld maxWorkers 0 "10.0.0.2"
    (probeAddress sampleFlags sampleEnv "10.0.0.2") [] _ hlen0 _ (by simpa using a5)
  have a7 := pool_step_at sampleFlags sampleEnv sampleWorld maxWorkers 0 _ hlen0 _ _ _ _ a6
    (Step.mark _ "10.0.0.2")
  have a8 := pool_step_at sampleFlags sampleEnv sampleWorld maxWorkers 0 _ hlen0 _ _ _ _ a7
    (Step.count _)
  rw [hself0] at a8
  have hw : twiceProbed = _ := rfl
  rw [hw]
  exact a8

theorem head_writeCSV (flags : Flags) (env : Env) (res : ScanResult) (row : List String)
    (h : row ∈ writeCSV flags env res) : row.head? = some res.IP := by
  unfold writeCSV at h
  simp only [List.mem_map] at h
  obtain ⟨model, _, rfl⟩ := h
  rfl

/-- C11, as amended: in every state a run of the pool can be in, the actions of
its workers (200 in `processResults`) interleaved in any order and the run
stopped by cancellation at any point, every address for which a result has been
sent is in the processed set or is an address whose probe block some worker is
in (a result is sent before its address is marked); when no worker is inside a
probe block, every address with a sent result is in the processed set; every
address in the processed set was processed at the start of the run or its
pipeline has completed; and every output row of the results sent so far is for
an address in the processed set or one being worked on. -/
theorem sent_implies_processed_or_working (flags : Flags) (env : Env) (w0 : World)
    (workers : Nat) (p : Pool)
    (h0 : w0.trace = []) (hp : PoolReachable flags env w0 workers p) :
    (∀ r ∈ sentResults p.world.trace,
      mapGet p.world.state.ScannedIPs r.IP = true ∨
        ∃ (i : Nat) (todo : List Event), p.phases[i]? = some (Phase.working r.IP todo)) ∧
    ((∀ ph ∈ p.phases, ph = Phase.idle ∨ ph = Phase.counting) →
      ∀ r ∈ sentResults p.world.trace, mapGet p.world.state.ScannedIPs r.IP = true) ∧
    (∀ a, mapGet p.world.state.ScannedIPs a = true →
      mapGet w0.state.ScannedIPs a = true ∨ Completed flags env p.world.trace a) ∧
    (∀ row ∈ handleScanResults flags env (sentResults p.world.trace),
      ∃ a, row.head? = some a ∧
        (mapGet p.world.state.ScannedIPs a = true ∨
          ∃ (i : Nat) (todo : List Event), p.phases[i]? = some (Phase.working a todo))) := by
  obtain ⟨i1, i2, _⟩ := pool_invariant flags env w0 workers h0 p hp
  refine ⟨i1, fun hphase r hr => ?_, i2, fun row hrow => ?_⟩
  · rcases i1 r hr with h1 | ⟨i, todo, h1⟩
    · exact h1
    · obtain ⟨hlt, hget⟩ := List.getElem?_eq_some_iff.mp h1
      have hmem : Phase.working r.IP todo ∈ p.phases := by
        rw [← hget]
        exact List.getElem_mem _
      rcases hphase _ hmem with h2 | h2 <;> simp at h2
  · simp only [handleScanResults, List.mem_flatten, List.mem_map] at hrow
    obtain ⟨rows, ⟨r, hr, rfl⟩, hrow⟩ := hrow
    exact ⟨r.IP, head_writeCSV flags env r row hrow, i1 r hr⟩

/-- C11 as amended, at the sample run with 200 workers after the whole step of
one worker on the reachable address, the other workers waiting: its result is
sent and the address is in the processed set. -/
theorem sent_implies_processed_or_working_witness :
    (sentResults (workerBody sampleFlags sampleEnv "10.0.0.2" sampleWorld).trace).all
      (fun r =>
        mapGet (workerBody sampleFlags sampleEnv "10.0.0.2" sampleWorld).state.ScannedIPs r.IP)
      = true :=
  List.all_eq_true.mpr
    ((sent_implies_processed_or_working sampleFlags sampleEnv sampleWorld maxWorkers
      { world := workerBody sampleFlags sampleEnv "10.0.0.2" sampleWorld,
        phases := List.replicate maxWorkers Phase.idle }
      rfl (pool_workerBody sampleFlags sampleEnv sampleWorld maxWorkers 0 "10.0.0.2" sampleWorld
        (List.replicate maxWorkers Phase.idle) first_worker_idle PoolReachable.init)).2.1
      (fun _ hph => Or.inl (List.eq_of_mem_replicate hph)))

/-- C11 fails as stated: the sample run reaches the state in which the result of
10.0.0.2 has been sent by a worker, with its two records, and 10.0.0.2 is not
yet in the processed set; the rows of that result are output rows for an
address outside the processed set. -/
theorem sent_before_marked :
    sampleWorld.trace = [] ∧
    PoolReachable sampleFlags sampleEnv sampleWorld maxWorkers sentNotMarked ∧
    (sentResults sentNotMarked.world.trace).map (fun r => (r.IP, r.Models.length))
      = [("10.0.0.2", 2)] ∧
    mapGet sentNotMarked.world.state.ScannedIPs "10.0.0.2" = false ∧
    handleScanResults sampleFlags sampleEnv (sentResults sentNotMarked.world.trace)
      = [["10.0.0.2", "deepseek-r1:7b", "发现"], ["10.0.0.2", "deepseek-r1:14b", "发现"]] ∧
    ¬ (∀ r ∈ sentResults sentNotMarked.world.trace,
        mapGet sentNotMarked.world.state.ScannedIPs r.IP = true) := by
  refine ⟨rfl, ?_, by decide, by decide, by decide, by decide⟩
  have hlen : 0 < (List.replicate maxWorkers Phase.idle).length := by
    rw [List.length_replicate]
    decide
  have hself : (List.replicate maxWorkers Phase.idle).set 0 Phase.idle
      = List.replicate maxWorkers Phase.idle :=
    set_phase_self _ 0 Phase.idle first_worker_idle
  have h0 : PoolReachable sampleFlags sampleEnv sampleWorld maxWorkers
      { world := sampleWorld, phases := (List.replicate maxWorkers Phase.idle).set 0 Phase.idle } := by
    rw [hself]
    exact PoolReachable.init
  have h1 := pool_step_at sampleFlags sampleEnv sampleWorld maxWorkers 0 _ hlen sampleWorld _ _ _
    h0 (Step.start sampleWorld "10.0.0.2" (by decide))
  have h2 := pool_acts sampleFlags sampleEnv sampleWorld maxWorkers 0 "10.0.0.2"
    (probeAddress sampleFlags sampleEnv "10.0.0.2") [] _ hlen sampleWorld (by simpa using h1)
  exact h2

/-! ### the output rows -/

/-- C12: for every result `writeCSV` writes one record per model record, in the
order of the result. Each record starts with the address of the result, the
model name and the status. With benchmarking disabled that is the whole record;
with benchmarking enabled two fields follow, in this order: the first-token
delay, computed as its `Seconds()` times 1000 and printed with `%.0f`, and the
tokens per second of the record printed with `%.1f`. The header `initCSVWriter`
writes has the same columns in the same order, 3 or 5, and the value printed in
the delay column is the delay in milliseconds: for a positive delay it is
within the relative error 2^-50 of the nanoseconds divided by 10^6, and it is 0
for the delay 0. -/
theorem writeCSV_one_row_per_record (flags : Flags) (env : Env) (res : ScanResult) :
    (writeCSV flags env res).length = res.Models.length ∧
    (writeCSV flags env res).map (fun row => row.take 3)
      = res.Models.map (fun model => [res.IP, model.Name, model.Status]) ∧
    (writeCSV flags env res).map (fun row => row.drop 3)
      = res.Models.map (fun model =>
          if flags.disableBench = true then []
          else
            [env.formatFloat 0
               (Float64.mul (Float64.seconds model.FirstTokenDelay) (Float64.finite 1000)),
             env.formatFloat 1 model.TokensPerSec]) ∧
    initCSVWriter flags
      = ["IP地址", "模型名称", "状态"] ++
          (if flags.disableBench = true then [] else ["首Token延迟(ms)", "Tokens/s"]) ∧
    (∀ row ∈ writeCSV flags env res, row.length = (initCSVWriter flags).length) ∧
    (initCSVWriter flags).length = (if flags.disableBench = true then 3 else 5) ∧
    (∀ model ∈ res.Models, 0 < model.FirstTokenDelay → model.FirstTokenDelay < 2 ^ 63 →
      ∃ ms : ℚ,
        Float64.mul (Float64.seconds model.FirstTokenDelay) (Float64.finite 1000)
          = Float64.finite ms ∧
        |ms - (model.FirstTokenDelay : ℚ) / 1000000|
          ≤ (model.FirstTokenDelay : ℚ) / 1000000 / 2 ^ 50) ∧
    Float64.mul (Float64.seconds 0) (Float64.finite 1000) = Float64.finite 0 := by
  refine ⟨by simp [writeCSV], ?_, ?_, ?_, ?_, ?_, ?_, by decide⟩
  · simp [writeCSV, Function.comp_def]
  · cases hb : flags.disableBench <;> simp [writeCSV, Function.comp_def, hb]
  · cases hb : flags.disableBench <;> simp [initCSVWriter, hb]
  · intro row hrow
    simp only [writeCSV, List.mem_map] at hrow
    obtain ⟨model, _, rfl⟩ := hrow
    cases hb : flags.disableBench <;> simp [initCSVWriter, hb]
  · cases hb : flags.disableBench <;> simp [initCSVWriter, hb]
  · intro model _ h1 h2
    exact millis_within model.FirstTokenDelay h1 h2

/-- C12 at a sample result with two records, benchmarking enabled, with the
formatter of the sample environment: two records of five fields each, in the
order of the result, the delay of 1000000 ns printed as "1" and the 1000 tokens
per second as "1000.0". -/
theorem writeCSV_one_row_per_record_witness :
    (writeCSV benchFlags sampleEnv sampleResult).length = 2 ∧
    (writeCSV benchFlags sampleEnv sampleResult).map (fun row => row.take 3)
      = [["10.0.0.2", "deepseek-r1:7b", "完成"], ["10.0.0.2", "deepseek-r1:14b", "连接失败"]] ∧
    (∀ row ∈ writeCSV benchFlags sampleEnv sampleResult, row.length = 5) ∧
    writeCSV benchFlags sampleEnv sampleResult
      = [["10.0.0.2", "deepseek-r1:7b", "完成", "1", "1000.0"],
         ["10.0.0.2", "deepseek-r1:14b", "连接失败", "0", "0.0"]] ∧
    initCSVWriter benchFlags = ["IP地址", "模型名称", "状态", "首Token延迟(ms)", "Tokens/s"] ∧
    formatFixed 1 (Float64.finite (mkRat 2757580382734221 70368744177664)) = "39.2" ∧
    formatFixed 0 (Float64.finite (mkRat 5 2)) = "2" ∧
    formatFixed 2 (Float64.finite (mkRat (-1) 8)) = "-0.12" ∧
    formatFixed 1 Float64.PosInf = "+Inf" :=
  ⟨(writeCSV_one_row_per_record benchFlags sampleEnv sampleResult).1,
   (writeCSV_one_row_per_record benchFlags sampleEnv sampleResult).2.1,
   (writeCSV_one_row_per_record benchFlags sampleEnv sampleResult).2.2.2.2.1,
   by decide, by decide, by decide, by decide, by decide, by decide⟩

/-! ### the processed set only grows -/

theorem mem_mapKeys_mapSet (m : List (String × Bool)) (key : String) (val : Bool) (a : String)
    (h : a ∈ mapKeys m) : a ∈ mapKeys (mapSet m key val) := by
  induction m with
  | nil => simp [mapKeys] at h
  | cons kv rest ih =>
    obtain ⟨k, v⟩ := kv
    simp only [mapKeys, List.map_cons, List.mem_cons] at h
    by_cases hk : k = key
    · simp only [mapSet, hk, if_true, mapKeys, List.map_cons, List.mem_cons]
      rcases h with h | h
      · exact Or.inl (h.trans hk)
      · exact Or.inr h
    · simp only [mapSet, hk, if_false, mapKeys, List.map_cons, List.mem_cons]
      rcases h with h | h
      · exact Or.inl h
      · exact Or.inr (ih h)

theorem workerBody_grows (flags : Flags) (env : Env) (ip : String) (w : World) (a : String) :
    (mapGet w.state.ScannedIPs a = true →
      mapGet (workerBody flags env ip w).state.ScannedIPs a = true) ∧
    (a ∈ mapKeys w.state.ScannedIPs →
      a ∈ mapKeys (workerBody flags env ip w).state.ScannedIPs) := by
  by_cases hp : mapGet w.state.ScannedIPs ip = true
  · rw [workerBody_processed flags env ip w hp]
    exact ⟨id, id⟩
  · simp only [workerBody, hp, Bool.false_eq_true, if_false]
    exact ⟨mapGet_mapSet_of_true _ _ _, mem_mapKeys_mapSet _ _ _ _⟩

theorem workerLoop_grows (flags : Flags) (env : Env) (sched : Schedule) (ips : List String)
    (n : Nat) (l : Loop) (a : String) :
    (mapGet l.world.state.ScannedIPs a = true →
      mapGet (workerLoop flags env sched n ips l).world.state.ScannedIPs a = true) ∧
    (a ∈ mapKeys l.world.state.ScannedIPs →
      a ∈ mapKeys (workerLoop flags env sched n ips l).world.state.ScannedIPs) := by
  induction ips generalizing n l with
  | nil => exact ⟨id, id⟩
  | cons ip rest ih =>
    obtain ⟨b1, b2⟩ := workerBody_grows flags env ip l.world a
    unfold workerLoop
    by_cases hc : sched.cancelAfter = some n
    · simp only [hc, if_true]
      exact ⟨id, id⟩
    · simp only [hc, if_false]
      by_cases ht : sched.tick n = true
      · simp only [ht, if_true]
        obtain ⟨h1, h2⟩ := ih (n + 1)
          { l with
            world := { workerBody flags env ip l.world with
                       state := { (workerBody flags env ip l.world).state with
                                  LastScanTime := env.now } },
            saved := l.saved ++ [{ (workerBody flags env ip l.world).state with
                                   LastScanTime := env.now }] }
        exact ⟨fun h => h1 (b1 h), fun h => h2 (b2 h)⟩
      · simp only [ht, Bool.false_eq_true, if_false]
        obtain ⟨h1, h2⟩ := ih (n + 1) { l with world := workerBody flags env ip l.world }
        exact ⟨fun h => h1 (b1 h), fun h => h2 (b2 h)⟩

theorem step_grows (flags : Flags) (env : Env) (m m2 : Machine) (hs : Step flags env m m2)
    (a : String) :
    (mapGet m.world.state.ScannedIPs a = true → mapGet m2.world.state.ScannedIPs a = true) ∧
    (a ∈ mapKeys m.world.state.ScannedIPs → a ∈ mapKeys m2.world.state.ScannedIPs) := by
  cases hs with
  | skip w ip h => exact ⟨id, id⟩
  | start w ip h => exact ⟨id, id⟩
  | act w ip e rest => exact ⟨id, id⟩
  | mark w ip => exact ⟨mapGet_mapSet_of_true _ _ _, mem_mapKeys_mapSet _ _ _ _⟩
  | count w => exact ⟨id, id⟩
  | tick w p => exact ⟨id, id⟩

theorem runScan_grows (flags : Flags) (env : Env) (sched : Schedule) (lines : List String)
    (state : ScanState) (a : String) (h : mapGet state.ScannedIPs a = true) :
    ∃ st, (runScan flags env sched lines state).state = some st ∧
      mapGet st.ScannedIPs a = true := by
  have hkeep : (countAddresses env lines state).ScannedIPs = state.ScannedIPs := by
    unfold countAddresses
    split <;> rfl
  have hloop := (workerLoop_grows flags env sched (validAddresses env lines) 0
    { world := { state := countAddresses env lines state,
                 progress := initProgress env (countAddresses env lines state),
                 trace := [] },
      saved := [], cancelled := false } a).1 (by rw [hkeep]; exact h)
  unfold runScan finishRun
  refine ⟨_, rfl, ?_⟩
  split
  · exact hloop
  · exact hloop

/-- C13: the processed set only grows. An address that is marked processed (value
true) before an action of the run is marked processed after it, and a key of
the processed map stays a key: for each single action of a worker and of the
ticker, for a whole worker step (skip, failed probe, successful probe), for the
worker loop under every schedule (cancellation and ticks included), and from
the loaded state to the end of a resumed run. -/
theorem processed_set_only_grows (flags : Flags) (env : Env) (a : String) :
    (∀ m m2 : Machine, Step flags env m m2 →
      (mapGet m.world.state.ScannedIPs a = true → mapGet m2.world.state.ScannedIPs a = true) ∧
      (a ∈ mapKeys m.world.state.ScannedIPs → a ∈ mapKeys m2.world.state.ScannedIPs)) ∧
    (∀ (ip : String) (w : World),
      (mapGet w.state.ScannedIPs a = true →
        mapGet (workerBody flags env ip w).state.ScannedIPs a = true) ∧
      (a ∈ mapKeys w.state.ScannedIPs →
        a ∈ mapKeys (workerBody flags env ip w).state.ScannedIPs)) ∧
    (∀ (sched : Schedule) (n : Nat) (ips : List String) (l : Loop),
      (mapGet l.world.state.ScannedIPs a = true →
        mapGet (workerLoop flags env sched n ips l).world.state.ScannedIPs a = true) ∧
      (a ∈ mapKeys l.world.state.ScannedIPs →
        a ∈ mapKeys (workerLoop flags env sched n ips l).world.state.ScannedIPs)) ∧
    (∀ (sched : Schedule) (lines : List String) (state : ScanState),
      env.openOutput = some lines →
      flags.resumeScan = true →
      env.stateFile = StateFile.content (some state) →
      validateStateConfig flags state = true →
      mapGet state.ScannedIPs a = true →
      ∃ st, (processResults flags env sched).state = some st ∧
        mapGet st.ScannedIPs a = true) := by
  refine ⟨fun m m2 hs => step_grows flags env m m2 hs a,
    fun ip w => workerBody_grows flags env ip w a,
    fun sched n ips l => workerLoop_grows flags env sched ips n l a, ?_⟩
  intro sched lines state hopen hres hfile hvalid ha
  have hrun : processResults flags env sched = runScan flags env sched lines state := by
    simp [processResults, hopen, hres, hfile, loadState, hvalid]
  rw [hrun]
  exact runScan_grows flags env sched lines state a ha

/-- C13 at the sample state in which 10.0.0.1 is processed: it is still
processed after the worker step of 10.0.0.2. -/
theorem processed_set_only_grows_witness :
    mapGet (workerBody sampleFlags sampleEnv "10.0.0.2"
      { sampleWorld with state := sampleState }).state.ScannedIPs "10.0.0.1" = true :=
  ((processed_set_only_grows sampleFlags sampleEnv "10.0.0.1").2.1 "10.0.0.2"
    { sampleWorld with state := sampleState }).1 (by decide)

/-! ### the count of chunks -/

theorem consumedLines_pos (line : Chunk) (rest : List Chunk) :
    0 < consumedLines (line :: rest) := by
  unfold consumedLines
  split <;> omega

theorem scanLines_general (clock : Nat → Int) (lines : List Chunk) (v : BenchVars)
    (hv : 0 < v.tokenCount) (hl : lines ≠ []) :
    scanLines clock lines v =
      { firstToken := v.firstToken,
        lastToken := clock (v.calls + consumedLines lines - 1),
        tokenCount := v.tokenCount + consumedLines lines,
        calls := v.calls + consumedLines lines } := by
  induction lines generalizing v with
  | nil => exact absurd rfl hl
  | cons line rest ih =>
    have h0 : v.tokenCount ≠ 0 := by omega
    by_cases hdone : line = Chunk.object (DoneField.boolean true)
    · subst hdone
      simp [scanLines, consumedLines, h0]
    · have hstep : scanLines clock (line :: rest) v = scanLines clock rest
          { firstToken := v.firstToken, lastToken := clock v.calls,
            tokenCount := v.tokenCount + 1, calls := v.calls + 1 } := by
        cases line with
        | malformed => simp [scanLines, h0]
        | object done =>
          have hd : done ≠ DoneField.boolean true := fun e => hdone (by rw [e])
          simp [scanLines, h0, hd]
      rw [hstep]
      cases rest with
      | nil => simp [scanLines, consumedLines, hdone]
      | cons line2 rest2 =>
        rw [ih _ (by simp) (by simp)]
        have hpos := consumedLines_pos line2 rest2
        have hc : consumedLines (line :: line2 :: rest2)
            = 1 + consumedLines (line2 :: rest2) := by
          rw [consumedLines, if_neg hdone]
        rw [hc]
        dsimp only
        congr 1
        all_goals first | omega | (congr 1; omega)

theorem scanLines_from_start (clock : Nat → Int) (line : Chunk) (rest : List Chunk) :
    scanLines clock (line :: rest)
        { firstToken := 0, lastToken := 0, tokenCount := 0, calls := 1 } =
      { firstToken := clock 1,
        lastToken := clock (consumedLines (line :: rest) + 1),
        tokenCount := consumedLines (line :: rest),
        calls := consumedLines (line :: rest) + 2 } := by
  by_cases hdone : line = Chunk.object (DoneField.boolean true)
  · subst hdone
    simp [scanLines, consumedLines]
  · have hstep : scanLines clock (line :: rest)
          { firstToken := 0, lastToken := 0, tokenCount := 0, calls := 1 } =
        scanLines clock rest
          { firstToken := clock 1, lastToken := clock 2, tokenCount := 1, calls := 3 } := by
      cases line with
      | malformed => simp [scanLines]
      | object done =>
        have hd : done ≠ DoneField.boolean true := fun e => hdone (by rw [e])
        simp [scanLines, hd]
    rw [hstep]
    cases rest with
    | nil => simp [scanLines, consumedLines, hdone]
    | cons line2 rest2 =>
      rw [scanLines_general clock _ _ (by simp) (by simp)]
      have hc : consumedLines (line :: line2 :: rest2)
          = 1 + consumedLines (line2 :: rest2) := by
        rw [consumedLines, if_neg hdone]
      rw [hc]
      dsimp only
      congr 1
      all_goals first | omega | (congr 1; omega)

theorem scanLines_wellFormed (clock : Nat → Int) (lines : List Chunk) (v : BenchVars) :
    scanLines clock (lines.map wellFormed) v = scanLines clock lines v := by
  induction lines generalizing v with
  | nil => rfl
  | cons line rest ih =>
    cases line with
    | malformed => simp [scanLines, wellFormed, ih]
    | object done => simp [scanLines, wellFormed, ih]

theorem consumedLines_no_done (lines : List Chunk)
    (h : ∀ c ∈ lines, c ≠ Chunk.object (DoneField.boolean true)) :
    consumedLines lines = lines.length := by
  induction lines with
  | nil => rfl
  | cons line rest ih =>
    have h1 : line ≠ Chunk.object (DoneField.boolean true) := h line (List.mem_cons_self _ _)
    rw [consumedLines, if_neg h1, ih (fun c hc => h c (List.mem_cons_of_mem _ hc))]
    simp
    omega

theorem consumedLines_first_done (pre post : List Chunk)
    (h : ∀ c ∈ pre, c ≠ Chunk.object (DoneField.boolean true)) :
    consumedLines (pre ++ Chunk.object (DoneField.boolean true) :: post) = pre.length + 1 := by
  induction pre with
  | nil => simp [consumedLines]
  | cons line rest ih =>
    have h1 : line ≠ Chunk.object (DoneField.boolean true) := h line (List.mem_cons_self _ _)
    rw [List.cons_append, consumedLines, if_neg h1,
      ih (fun c hc => h c (List.mem_cons_of_mem _ hc))]
    simp
    omega

/-- C14, as amended: for every body of a 200 response, the chunk count of
`benchmarkModel` is the number of lines read by the scanner up to and including
the first one that is an object whose `done` field is the boolean true, and the
number of all lines read when there is none; the lines read are the pieces that
arrived before the failing read, up to the first one of 65536 bytes or more,
and they are all lines of the stream when every line is shorter than 65536
bytes and the body is read to its end with nothing after the last newline. Among the lines read, a malformed
line does not stop the loop and is counted; the loop ends in the same variables
as when every malformed line is replaced by an object without `done` field, so
the status is the same; and the first line read, malformed or not, sets the
first-token time. -/
theorem benchmark_chunk_count (flags : Flags) (env : Env) (ip model : String)
    (body : Body)
    (hb : flags.disableBench = false)
    (hresp : env.postGenerate ip model = GenerateResponse.answered 200 body) :
    (scanLines (env.clock ip model) (scanTokens body)
        { firstToken := 0, lastToken := 0, tokenCount := 0, calls := 1 }).tokenCount
      = consumedLines (scanTokens body) ∧
    scanTokens body =
      ((body.lines.take body.arrived ++
        (match body.tail with
         | some t => if t.size = 0 then [] else [t]
         | none => [])).takeWhile
          (fun l => decide (l.size < MaxScanTokenSize))).map StreamLine.chunk ∧
    ((∀ l ∈ body.lines, l.size < MaxScanTokenSize) → body.lines.length ≤ body.arrived →
      body.tail = none →
      scanTokens body = body.lines.map StreamLine.chunk ∧
      (scanLines (env.clock ip model) (scanTokens body)
          { firstToken := 0, lastToken := 0, tokenCount := 0, calls := 1 }).tokenCount
        = consumedLines (body.lines.map StreamLine.chunk)) ∧
    (∀ pre post, scanTokens body = pre ++ Chunk.object (DoneField.boolean true) :: post →
      (∀ c ∈ pre, c ≠ Chunk.object (DoneField.boolean true)) →
      consumedLines (scanTokens body) = pre.length + 1) ∧
    ((∀ c ∈ scanTokens body, c ≠ Chunk.object (DoneField.boolean true)) →
      consumedLines (scanTokens body) = (scanTokens body).length) ∧
    (∀ rest, consumedLines (Chunk.malformed :: rest) = 1 + consumedLines rest) ∧
    scanLines (env.clock ip model) ((scanTokens body).map wellFormed)
        { firstToken := 0, lastToken := 0, tokenCount := 0, calls := 1 }
      = scanLines (env.clock ip model) (scanTokens body)
        { firstToken := 0, lastToken := 0, tokenCount := 0, calls := 1 } ∧
    (scanTokens body ≠ [] →
      (scanLines (env.clock ip model) (scanTokens body)
        { firstToken := 0, lastToken := 0, tokenCount := 0, calls := 1 }).firstToken
        = env.clock ip model 1 ∧
      benchmarkModel flags env ip model =
        (env.clock ip model 1 - env.clock ip model 0,
         Float64.divide (Float64.ofInt ((consumedLines (scanTokens body) : ℕ) : ℤ))
           (Float64.seconds
             (env.clock ip model (consumedLines (scanTokens body) + 1) - env.clock ip model 0)),
         "完成")) := by
  have hcnt : (scanLines (env.clock ip model) (scanTokens body)
        { firstToken := 0, lastToken := 0, tokenCount := 0, calls := 1 }).tokenCount
      = consumedLines (scanTokens body) := by
    cases scanTokens body with
    | nil => rfl
    | cons line rest => rw [scanLines_from_start]
  refine ⟨hcnt, takeTokens_eq_takeWhile _, fun hshort harr htail => ?_, ?_,
    consumedLines_no_done _, fun rest => ?_, scanLines_wellFormed _ _ _, fun hne => ?_⟩
  · have hw := scanTokens_whole body hshort harr htail
    refine ⟨hw, ?_⟩
    rw [hcnt, hw]
  · intro pre post hl hpre
    rw [hl]
    exact consumedLines_first_done pre post hpre
  · rw [consumedLines, if_neg (by simp)]
  · unfold benchmarkModel
    simp only [hb, hresp, Bool.false_eq_true, if_false, ne_eq, not_true_eq_false]
    cases hs : scanTokens body with
    | nil => exact absurd hs hne
    | cons line rest =>
      have hpos := consumedLines_pos line rest
      have hcount : consumedLines (line :: rest) ≠ 0 := by omega
      refine ⟨by rw [scanLines_from_start], ?_⟩
      simp only [scanLines_from_start, hcount, if_false]

/-- C14 as amended, at a stream of short lines read to its end, whose first line
is malformed and whose third line is marked done, followed by one more line:
the lines read are the four lines of the stream, three chunks are counted, the
status is "完成", and the first-token time is the reading taken at the
malformed first line. -/
theorem benchmark_chunk_count_witness :
    (scanLines (mixedEnv.clock "10.0.0.2" "deepseek-r1:7b") (scanTokens (shortLines mixedStream))
        { firstToken := 0, lastToken := 0, tokenCount := 0, calls := 1 }).tokenCount
      = consumedLines (scanTokens (shortLines mixedStream)) ∧
    (scanTokens (shortLines mixedStream) = (shortLines mixedStream).lines.map StreamLine.chunk ∧
      (scanLines (mixedEnv.clock "10.0.0.2" "deepseek-r1:7b")
          (scanTokens (shortLines mixedStream))
          { firstToken := 0, lastToken := 0, tokenCount := 0, calls := 1 }).tokenCount
        = consumedLines ((shortLines mixedStream).lines.map StreamLine.chunk)) ∧
    (shortLines mixedStream).lines.map StreamLine.chunk = mixedStream ∧
    consumedLines mixedStream = 3 ∧
    (benchmarkModel benchFlags mixedEnv "10.0.0.2" "deepseek-r1:7b").1
      = mixedEnv.clock "10.0.0.2" "deepseek-r1:7b" 1
        - mixedEnv.clock "10.0.0.2" "deepseek-r1:7b" 0 ∧
    (benchmarkModel benchFlags mixedEnv "10.0.0.2" "deepseek-r1:7b").2.2 = "完成" :=
  ⟨(benchmark_chunk_count benchFlags mixedEnv "10.0.0.2" "deepseek-r1:7b"
      (shortLines mixedStream) rfl rfl).1,
   (benchmark_chunk_count benchFlags mixedEnv "10.0.0.2" "deepseek-r1:7b"
      (shortLines mixedStream) rfl rfl).2.2.1 (by decide) (by decide) rfl,
   by decide,
   by decide,
   congrArg (fun r => r.1) ((benchmark_chunk_count benchFlags mixedEnv "10.0.0.2"
      "deepseek-r1:7b" (shortLines mixedStream) rfl rfl).2.2.2.2.2.2.2 (by decide)).2,
   congrArg (fun r => r.2.2) ((benchmark_chunk_count benchFlags mixedEnv "10.0.0.2"
      "deepseek-r1:7b" (shortLines mixedStream) rfl rfl).2.2.2.2.2.2.2 (by decide)).2⟩

/-- C14 fails as stated. For the stream of the two lines, a line of 70000 bytes
and a line that is an object marked done, the claim gives the count 2; the
scanner stops at the first line, no chunk is counted and the status is
"无响应". For the stream of three short lines of which only the first and 7
bytes of the second have arrived when the client timeout expires, the claim
gives the count 3; two chunks are counted (the first line and the arrived
fragment). -/
theorem benchmark_count_stops_at_long_or_late_line :
    longLineEnv.postGenerate "10.0.0.2" "deepseek-r1:7b"
      = GenerateResponse.answered 200 longLineBody ∧
    longLineBody.lines.map StreamLine.size = [70000, 13] ∧
    consumedLines (longLineBody.lines.map StreamLine.chunk) = 2 ∧
    (scanLines (longLineEnv.clock "10.0.0.2" "deepseek-r1:7b") (scanTokens longLineBody)
        { firstToken := 0, lastToken := 0, tokenCount := 0, calls := 1 }).tokenCount = 0 ∧
    benchmarkModel benchFlags longLineEnv "10.0.0.2" "deepseek-r1:7b"
      = (0, Float64.zero, "无响应") ∧
    lateEnv.postGenerate "10.0.0.2" "deepseek-r1:7b"
      = GenerateResponse.answered 200 lateBody ∧
    consumedLines (lateBody.lines.map StreamLine.chunk) = 3 ∧
    (scanLines (lateEnv.clock "10.0.0.2" "deepseek-r1:7b") (scanTokens lateBody)
        { firstToken := 0, lastToken := 0, tokenCount := 0, calls := 1 }).tokenCount = 2 ∧
    (benchmarkModel benchFlags lateEnv "10.0.0.2" "deepseek-r1:7b").2.2 = "完成" := by
  decide

/-! ### the progress counter -/

theorem workerBody_progress (flags : Flags) (env : Env) (ip : String) (w : World) :
    (workerBody flags env ip w).progress = w.progress.Increment := by
  unfold workerBody
  split <;> rfl

theorem workerLoop_progress (flags : Flags) (env : Env) (sched : Schedule) (ips : List String)
    (n : Nat) (l : Loop) :
    (workerLoop flags env sched n ips l).world.progress.total = l.world.progress.total ∧
    (workerLoop flags env sched n ips l).world.progress.current
      ≤ l.world.progress.current + (ips.length : Int) := by
  induction ips generalizing n l with
  | nil => simp [workerLoop]
  | cons ip rest ih =>
    have htot : (workerBody flags env ip l.world).progress.total = l.world.progress.total := by
      rw [workerBody_progress]
      rfl
    have hcur : (workerBody flags env ip l.world).progress.current + (rest.length : Int)
        ≤ l.world.progress.current + ((ip :: rest).length : Int) := by
      rw [workerBody_progress]
      simp only [Progress.Increment, List.length_cons, Nat.cast_add, Nat.cast_one]
      omega
    unfold workerLoop
    by_cases hc : sched.cancelAfter = some n
    · simp only [hc, if_true, List.length_cons]
      exact ⟨trivial, by omega⟩
    · simp only [hc, if_false]
      by_cases ht : sched.tick n = true
      · simp only [ht, if_true]
        obtain ⟨h1, h2⟩ := ih (n + 1)
          { l with
            world := { workerBody flags env ip l.world with
                       state := { (workerBody flags env ip l.world).state with
                                  LastScanTime := env.now } },
            saved := l.saved ++ [{ (workerBody flags env ip l.world).state with
                                   LastScanTime := env.now }] }
        exact ⟨h1.trans htot, le_trans h2 hcur⟩
      · simp only [ht, Bool.false_eq_true, if_false]
        obtain ⟨h1, h2⟩ := ih (n + 1) { l with world := workerBody flags env ip l.world }
        exact ⟨h1.trans htot, le_trans h2 hcur⟩

/-- In a run that starts from a fresh state the counter stays within the total,
under every schedule: the defect evaluated below belongs to the resume path. -/
theorem fresh_progress_within_total (flags : Flags) (env : Env) (sched : Schedule)
    (lines : List String) :
    ∃ p, (runScan flags env sched lines (freshState flags)).progress = some p ∧
      p.current ≤ p.total := by
  have hstart : countAddresses env lines (freshState flags)
      = { freshState flags with TotalIPs := ((validAddresses env lines).length : Int) } := by
    simp [countAddresses, freshState]
  obtain ⟨h1, h2⟩ := workerLoop_progress flags env sched (validAddresses env lines) 0
    { world := { state := countAddresses env lines (freshState flags),
                 progress := initProgress env (countAddresses env lines (freshState flags)),
                 trace := [] },
      saved := [], cancelled := false }
  refine ⟨_, rfl, ?_⟩
  rw [hstart] at h1 h2
  simp only [initProgress, Progress.Init, freshState, List.length_nil, Nat.cast_zero,
    zero_add] at h1 h2
  show (workerLoop flags env sched 0 (validAddresses env lines) _).world.progress.current
    ≤ (workerLoop flags env sched 0 (validAddresses env lines) _).world.progress.total
  rw [hstart]
  simp only [initProgress, Progress.Init, freshState, List.length_nil, Nat.cast_zero]
  rw [h1]
  exact h2

/-- C15, evaluated: on the resumed sample run (three valid addresses, all three
marked processed in the loaded state, total 3) the counter starts at 3, the
first skipped address raises it to 4, and the run ends with the counter at 6 of
3: the percentage is 200 and the remaining-time estimate after six seconds is
negative. -/
theorem resumed_progress_exceeds_total :
    validAddresses resumedEnv ["10.0.0.1", " 10.0.0.2 ", "not an address", "10.0.0.3"]
      = ["10.0.0.1", "10.0.0.2", "10.0.0.3"] ∧
    initProgress resumedEnv
        { ScannedIPs := [("10.0.0.1", true), ("10.0.0.2", true), ("10.0.0.3", true)],
          LastScanTime := 0, TotalIPs := 3, Config := currentConfig sampleFlags }
      = { total := 3, current := 3, startTime := 0 } ∧
    (workerBody resumeFlags resumedEnv "10.0.0.1"
        { state :=
            { ScannedIPs := [("10.0.0.1", true), ("10.0.0.2", true), ("10.0.0.3", true)],
              LastScanTime := 0, TotalIPs := 3, Config := currentConfig sampleFlags },
          progress := { total := 3, current := 3, startTime := 0 },
          trace := [] }).progress
      = { total := 3, current := 4, startTime := 0 } ∧
    (processResults resumeFlags resumedEnv calmSchedule).progress
      = some { total := 3, current := 6, startTime := 0 } ∧
    (∃ p, (processResults resumeFlags resumedEnv calmSchedule).progress = some p ∧
      ¬ (p.current ≤ p.total)) ∧
    Progress.percentage { total := 3, current := 6, startTime := 0 } = Float64.finite 200 ∧
    Progress.remainingTime { total := 3, current := 6, startTime := 0 } 6000000000
      = Float64.finite (-3000000000) := by
  refine ⟨by decide, by decide, by decide, by decide,
    ⟨{ total := 3, current := 6, startTime := 0 }, by decide, by decide⟩, by decide, by decide⟩

end OllamaScanner
